import Mathlib

/-!
# A shallow embedding of the `compiled-lang-test` semantic resolver

This file embeds the typed-IR lowering engine of the repository
(`src/interpreter/*`: `value.rs`, `scope.rs`, `macros.rs`, `ast.rs`,
`native_fns.rs`, `mod.rs`) into Lean 4 and proves the behavioural
claims about it.

Modelling conventions:
* Rust `f64` literals are carried as `Rat` payloads — the resolver never
  performs floating-point arithmetic or comparison on them, it only
  stores them and reads off their type tag.
* Rust panics (out-of-bounds indexing, the `panic!` in
  `ItpConstantValue::get_type`, `HashMap` misuse) are modelled as a
  distinct `Res.panic` outcome, separate from structured `anyhow`
  errors (`Res.err`).
* The `Rc<RefCell<Scope>>` graph is modelled as an arena (`Heap`):
  a list of scope records addressed by index, each holding an optional
  parent index and an association list of bindings.  `HashMap` bindings
  are modelled as association lists with insert-overwrites-first-match
  semantics; iteration order is the list order.  `RefCell` borrow
  panics are not modelled (single-threaded aliasing detail).
* Scope-mutation errors are a small inductive (`ScopeErr`) rather than
  strings; `set_or_replace`'s substring test `contains("not defined")`
  distinguishes exactly the `NotDefined` error among the errors
  `replace` can produce, so it is modelled as a match on that
  constructor.
-/

namespace CompiledLang

/-- `IdentifierKind` from `tokens.rs`: plain / `@name` / `$name`. -/
inductive IdentifierKind where
  | varId
  | macroId
  | typeId
deriving DecidableEq

/-- `Identifier` from `tokens.rs`. -/
structure Identifier where
  name : String
  kind : IdentifierKind
deriving DecidableEq

/-- `ItpTypeValue` from `interpreter/value.rs`.  The Rust
`Function { parameters: ItpFunctionParameters, return_type }` case is
inlined: `parameters` carries `generics`, the named parameter list and
the `variadic` flag. -/
inductive ItpTypeValue where
  | int
  | float
  | string
  | char
  | bool
  | array (t : ItpTypeValue)
  | function (generics : List String) (parameters : List (String × ItpTypeValue))
      (variadic : Bool) (returnType : ItpTypeValue)
  | generic (name : String)
  | void

mutual
/-- Boolean equality on `ItpTypeValue` (the derived `PartialEq` of the
Rust enum). -/
def ItpTypeValue.beq : ItpTypeValue → ItpTypeValue → Bool
  | .int, .int => true
  | .float, .float => true
  | .string, .string => true
  | .char, .char => true
  | .bool, .bool => true
  | .void, .void => true
  | .array t, .array u => ItpTypeValue.beq t u
  | .function g p v r, .function g' p' v' r' =>
      g == g' && ItpTypeValue.beqParams p p' && v == v' && ItpTypeValue.beq r r'
  | .generic n, .generic m => n == m
  | _, _ => false

/-- Pointwise equality of named-parameter lists. -/
def ItpTypeValue.beqParams :
    List (String × ItpTypeValue) → List (String × ItpTypeValue) → Bool
  | [], [] => true
  | (n, t) :: ps, (n', t') :: ps' =>
      n == n' && ItpTypeValue.beq t t' && ItpTypeValue.beqParams ps ps'
  | _, _ => false
end

mutual
theorem ItpTypeValue.beq_iff : ∀ (a b : ItpTypeValue), a.beq b = true ↔ a = b
  | .int, b => by cases b <;> simp [ItpTypeValue.beq]
  | .float, b => by cases b <;> simp [ItpTypeValue.beq]
  | .string, b => by cases b <;> simp [ItpTypeValue.beq]
  | .char, b => by cases b <;> simp [ItpTypeValue.beq]
  | .bool, b => by cases b <;> simp [ItpTypeValue.beq]
  | .void, b => by cases b <;> simp [ItpTypeValue.beq]
  | .array t, b => by
      cases b <;> simp [ItpTypeValue.beq]
      exact ItpTypeValue.beq_iff t _
  | .function g p v r, b => by
      cases b <;> simp [ItpTypeValue.beq]
      rw [ItpTypeValue.beq_iff r _, ItpTypeValue.beqParams_iff p _]
      tauto
  | .generic n, b => by cases b <;> simp [ItpTypeValue.beq]

theorem ItpTypeValue.beqParams_iff :
    ∀ (a b : List (String × ItpTypeValue)), ItpTypeValue.beqParams a b = true ↔ a = b
  | [], b => by cases b <;> simp [ItpTypeValue.beqParams]
  | (n, t) :: ps, [] => by simp [ItpTypeValue.beqParams]
  | (n, t) :: ps, (n', t') :: ps' => by
      simp only [ItpTypeValue.beqParams, Bool.and_eq_true, beq_iff_eq, List.cons.injEq,
        Prod.mk.injEq]
      rw [ItpTypeValue.beq_iff t t', ItpTypeValue.beqParams_iff ps ps']
end

instance : DecidableEq ItpTypeValue :=
  fun a b => decidable_of_iff _ (ItpTypeValue.beq_iff a b)

/-- `ItpFunctionParameters` from `interpreter/value.rs`. -/
structure ItpFunctionParameters where
  generics : List String
  parameters : List (String × ItpTypeValue)
  variadic : Bool
deriving DecidableEq

/-- The `ItpTypeValue::Function` view of a signature (as produced by
`ItpValue::get_type`). -/
def ItpFunctionParameters.funType (p : ItpFunctionParameters)
    (ret : ItpTypeValue) : ItpTypeValue :=
  .function p.generics p.parameters p.variadic ret

/-- Insert into an association list, overwriting the first occurrence of
the key, else appending (the `HashMap::insert` observable behaviour). -/
def insertAssoc {α : Type} (m : List (String × α)) (k : String) (v : α) :
    List (String × α) :=
  match m with
  | [] => [(k, v)]
  | (k', v') :: rest =>
      if k' = k then (k, v) :: rest else (k', v') :: insertAssoc rest k v

/-- `ItpTypeValue::replace_generics` from `interpreter/value.rs`
(substitution of bound generics; note the `Function` arm keeps the
parameter list unchanged and substitutes only in the return type). -/
def ItpTypeValue.replace_generics (t : ItpTypeValue)
    (generics : List (String × ItpTypeValue)) : ItpTypeValue :=
  match t with
  | .generic name =>
      match generics.lookup name with
      | some u => u
      | none => t
  | .array u => .array (u.replace_generics generics)
  | .function g p v r => .function g p v (r.replace_generics generics)
  | _ => t

/-- `IFPCheck` from `interpreter/value.rs`.  The `Ok` case carries the
per-call generic substitution map. -/
inductive IFPCheck where
  | ok (generics : List (String × ItpTypeValue))
  | notEnoughParameters
  | tooManyParameters
  | wrongType (i : Nat) (a b : ItpTypeValue)
deriving DecidableEq

/-- `check_param` from `interpreter/value.rs`.  The Rust function
mutates the `generics` map and returns `Result<(), IFPCheck>`; here the
updated map is returned on success.  Note that every error is built as
`WrongType(i, param.clone(), value.clone())` — declared type first,
actual type second — and in the bound-generic-conflict arm `param` is
the `Generic(name)` type itself, not the bound type `g`. -/
def check_param (generics : List (String × ItpTypeValue)) (i : Nat)
    (param : ItpTypeValue) (value : ItpTypeValue) :
    Except IFPCheck (List (String × ItpTypeValue)) :=
  match param with
  | .generic name =>
      match generics.lookup name with
      | none => .ok (insertAssoc generics name value)
      | some g =>
          if g = value then .ok generics
          else .error (.wrongType i param value)
  | .array t =>
      match value with
      | .array v => check_param generics i t v
      | _ => .error (.wrongType i param value)
  | _ =>
      if param = value then .ok generics
      else .error (.wrongType i param value)

/-- The `for (i, (_, t)) in self.parameters.iter().enumerate()` loop of
`check_params`: positional checking of the declared parameters against
the first `self.parameters.len()` actual types.  The top-level length
guard guarantees the actual list is at least as long as the declared
one, so the `(_ :: _, [])` arm (which would be an out-of-bounds
`params[i]` in Rust) is unreachable from `check_params`. -/
def checkParamsLoop (generics : List (String × ItpTypeValue)) (i : Nat) :
    List (String × ItpTypeValue) → List ItpTypeValue → IFPCheck
  | [], _ => .ok generics
  | (_, t) :: rest, v :: vrest =>
      match check_param generics i t v with
      | .error r => r
      | .ok generics' => checkParamsLoop generics' (i + 1) rest vrest
  | _ :: _, [] => .ok generics

/-- `ItpFunctionParameters::check_params` from `interpreter/value.rs`. -/
def ItpFunctionParameters.check_params (self : ItpFunctionParameters)
    (params : List ItpTypeValue) : IFPCheck :=
  if params.length < self.parameters.length then .notEnoughParameters
  else if !self.variadic && params.length > self.parameters.length then
    .tooManyParameters
  else checkParamsLoop [] 0 self.parameters params

/-! `ParsedAst` / `ParsedAstKind` from `parser/ast.rs`.  `f64` literal
payloads are carried as `Rat`. -/
mutual
inductive ParsedAst where
  | mk (kind : ParsedAstKind) (line : Nat) (column : Nat)
inductive ParsedAstKind where
  | intL (v : Int)
  | floatL (v : Rat)
  | boolL (v : Bool)
  | charL (v : Char)
  | stringL (v : String)
  | arrayL (vs : List ParsedAst)
  | identifier (id : Identifier)
  | call (name : Identifier) (args : List ParsedAst)
end

def ParsedAst.kind : ParsedAst → ParsedAstKind
  | .mk k _ _ => k

def ParsedAst.line : ParsedAst → Nat
  | .mk _ l _ => l

def ParsedAst.column : ParsedAst → Nat
  | .mk _ _ c => c

/-- `ParsedAst::error` from `parser/ast.rs`: the `anyhow!` message with
the node's source position. -/
def ParsedAst.errorMsg (a : ParsedAst) (m : String) : String :=
  "Error at line " ++ toString a.line ++ " column " ++ toString a.column ++ ": " ++ m

/-! `ItpAst` / `ItpAstKind` / `ItpConstantValue` / `ItpValue` from
`interpreter/ast.rs` and `interpreter/value.rs`.  The Rust
`ItpFunctionValue` / `UnItpedFunctionValue` / `NativeFunctionValue`
structs (and the `ItpFunctionParameters` they contain) are inlined into
the `ItpValue` constructors to satisfy Lean's mutual-inductive
restrictions. -/
mutual
inductive ItpAst where
  | mk (kind : ItpAstKind) (line : Nat) (column : Nat)
inductive ItpAstKind where
  | constant (v : ItpConstantValue)
  | arrayK (vs : List ItpAst)
  | variableK (name : Identifier) (result : ItpTypeValue)
  | setVariable (name : Identifier) (value : ItpAst)
  | param (position : Nat) (name : Identifier) (result : ItpTypeValue)
  | conditional (condition thenB elseB : ItpAst)
  | loop (condition body : ItpAst)
  | call (function : Identifier) (arguments : List ItpAst) (result : ItpTypeValue)
inductive ItpConstantValue where
  | int (v : Int)
  | float (v : Rat)
  | string (v : String)
  | char (v : Char)
  | bool (v : Bool)
  | array (vs : List ItpValue)
inductive ItpValue where
  | param (i : Nat) (t : ItpTypeValue)
  | constant (c : ItpConstantValue)
  | named (id : Identifier) (t : ItpTypeValue)
  | function (name : String) (generics : List String)
      (parameters : List (String × ItpTypeValue)) (variadic : Bool)
      (body : List ItpAst) (returnType : ItpTypeValue)
  | unItpedFunction (name : String) (generics : List String)
      (parameters : List (String × ItpTypeValue)) (variadic : Bool)
      (body : List ParsedAst) (returnType : ItpTypeValue)
  | nativeFunction (name : String) (generics : List String)
      (parameters : List (String × ItpTypeValue)) (variadic : Bool)
      (returnType : ItpTypeValue) (intrinsic : Bool)
end

def ItpAst.kind : ItpAst → ItpAstKind
  | .mk k _ _ => k

def ItpAst.line : ItpAst → Nat
  | .mk _ l _ => l

def ItpAst.column : ItpAst → Nat
  | .mk _ _ c => c

/-- The distinct-types list built by
`values.iter().map(|v| v.get_type()).collect::<HashSet<_>>()`: only its
size and (when the size is 1) its unique element are observed by the
source. -/
def dedupTypes : List ItpTypeValue → List ItpTypeValue
  | [] => []
  | t :: ts =>
      let r := dedupTypes ts
      if t ∈ r then r else t :: r

mutual
/-- `ItpValue::get_type` from `interpreter/value.rs`.  `none` models the
`panic!("Array with different types")` reachable through the
`Constant` arm. -/
def ItpValue.get_type : ItpValue → Option ItpTypeValue
  | .param _ t => some t
  | .constant c => ItpConstantValue.get_type c
  | .named _ t => some t
  | .function _ g p v _ r => some (.function g p v r)
  | .unItpedFunction _ g p v _ r => some (.function g p v r)
  | .nativeFunction _ g p v r _ => some (.function g p v r)

/-- `ItpConstantValue::get_type` from `interpreter/value.rs`.  The
array arm collects each element's type into a set and requires the set
to have exactly one element, else it panics (`none`). -/
def ItpConstantValue.get_type : ItpConstantValue → Option ItpTypeValue
  | .int _ => some .int
  | .float _ => some .float
  | .string _ => some .string
  | .char _ => some .char
  | .bool _ => some .bool
  | .array vs =>
      match elementTypes vs with
      | none => none
      | some ts =>
          match dedupTypes ts with
          | [t] => some (.array t)
          | _ => none

/-- The `values.iter().map(|v| v.get_type())` traversal; a panic in any
element propagates. -/
def elementTypes : List ItpValue → Option (List ItpTypeValue)
  | [] => some []
  | v :: vs =>
      match ItpValue.get_type v, elementTypes vs with
      | some t, some ts => some (t :: ts)
      | _, _ => none
end

mutual
/-- `ItpAst::get_type` from `interpreter/ast.rs` (panic propagated as
`none` through constant arrays). -/
def ItpAst.get_type : ItpAst → Option ItpTypeValue
  | .mk k _ _ => ItpAstKind.get_type k

def ItpAstKind.get_type : ItpAstKind → Option ItpTypeValue
  | .constant v => ItpConstantValue.get_type v
  | .arrayK [] => some (.array .void)
  | .arrayK (v :: _) =>
      match ItpAst.get_type v with
      | some t => some (.array t)
      | none => none
  | .variableK _ r => some r
  | .setVariable _ _ => some .void
  | .conditional _ thenB elseB =>
      match ItpAst.get_type thenB, ItpAst.get_type elseB with
      | some tt, some te => some (if tt ≠ te then .void else tt)
      | _, _ => none
  | .loop _ _ => some .void
  | .param _ _ r => some r
  | .call _ _ r => some r
end

/-- Outcome of a resolver computation: `ok`, a structured `anyhow`
error (`err`), or a Rust panic (`panic`). -/
inductive Res (α : Type) where
  | ok (a : α)
  | err (msg : String)
  | panic (msg : String)
deriving DecidableEq

/-- `Scope` from `interpreter/scope.rs`: an arena record.  `parent` is
the index of the parent scope in the heap (always smaller than the
record's own index for heaps built by the resolver). -/
structure Scope where
  parent : Option Nat
  bindings : List (String × ItpValue)

/-- The arena of `Rc<RefCell<Scope>>` records; index 0 is the global
scope. -/
abbrev Heap := List Scope

/-- Scope-mutation errors from `interpreter/scope.rs`.  The source
carries them as `anyhow` strings; `set_or_replace` discriminates them
with `e.to_string().contains("not defined")`, which among the errors
`replace` can produce holds exactly for `notDefined`. -/
inductive ScopeErr where
  | alreadyDefined
  | alreadyDefinedDifferentType
  | notDefined
deriving DecidableEq

/-- The exact `anyhow!` message of each scope error in the source. -/
def ScopeErr.message : ScopeErr → String
  | .alreadyDefined => "Variable already defined"
  | .alreadyDefinedDifferentType => "Variable already defined with different type"
  | .notDefined => "Variable not defined"

/-- Result of a scope mutation: new heap, scope error, or panic (a
`get_type` panic inside `replace`). -/
inductive ScopeRes where
  | ok (h : Heap)
  | err (e : ScopeErr)
  | panic

/-- The scope record at index `s` (total accessor; resolver-built heaps
only ever use valid indices). -/
def Heap.scopeAt (h : Heap) (s : Nat) : Scope :=
  h.getD s ⟨none, []⟩

/-- Overwrite the scope record at index `s`. -/
def Heap.setScope (h : Heap) (s : Nat) (sc : Scope) : Heap :=
  h.set s sc

/-- `Scope::get` from `interpreter/scope.rs`: local bindings first,
then the parent chain.  The `p < s` guard encodes the acyclicity that
holds by construction in the source (a parent is always created before
its children, hence has a smaller arena index). -/
def Heap.scopeGet (h : Heap) : Nat → String → Option ItpValue
  | s, name =>
      match (h.scopeAt s).bindings.lookup name with
      | some v => some v
      | none =>
          match (h.scopeAt s).parent with
          | some p => if _ : p < s then h.scopeGet p name else none
          | none => none

/-- `Scope::set` from `interpreter/scope.rs`: define-only, fails with
`AlreadyDefined` if the name is present in the local scope. -/
def Heap.scopeSet (h : Heap) (s : Nat) (name : String) (v : ItpValue) :
    Except ScopeErr Heap :=
  let sc := h.scopeAt s
  if (sc.bindings.lookup name).isSome then .error .alreadyDefined
  else .ok (h.setScope s ⟨sc.parent, insertAssoc sc.bindings name v⟩)

/-- `Scope::replace` from `interpreter/scope.rs`: overwrite in the
first scope of the chain that holds `name`, requiring the new binding's
type to equal the old one's; `NotDefined` if no scope in the chain
holds it.  The two `get_type` calls may panic (constant arrays). -/
def Heap.scopeReplace (h : Heap) : Nat → String → ItpValue → ScopeRes
  | s, name, v =>
      match (h.scopeAt s).bindings.lookup name with
      | some old =>
          match old.get_type, v.get_type with
          | some ty, some ty' =>
              if ty ≠ ty' then .err .alreadyDefinedDifferentType
              else .ok (h.setScope s
                ⟨(h.scopeAt s).parent, insertAssoc (h.scopeAt s).bindings name v⟩)
          | _, _ => .panic
      | none =>
          match (h.scopeAt s).parent with
          | some p => if _ : p < s then h.scopeReplace p name v else .err .notDefined
          | none => .err .notDefined

/-- `Scope::set_or_replace` from `interpreter/scope.rs`: try `replace`;
if it failed with the "not defined" error, `set` locally. -/
def Heap.scopeSetOrReplace (h : Heap) (s : Nat) (name : String) (v : ItpValue) :
    ScopeRes :=
  match h.scopeReplace s name v with
  | .err .notDefined =>
      match h.scopeSet s name v with
      | .ok h' => .ok h'
      | .error e => .err e
  | r => r

/-- `ParsedAst::as_identifier` from `parser/ast.rs`. -/
def ParsedAst.as_identifier (a : ParsedAst) : Except String Identifier :=
  match a.kind with
  | .identifier id => .ok id
  | _ => .error (a.errorMsg "Expected identifier")

/-- `ParsedAst::as_array` from `parser/ast.rs`. -/
def ParsedAst.as_array (a : ParsedAst) : Except String (List ParsedAst) :=
  match a.kind with
  | .arrayL vs => .ok vs
  | _ => .error (a.errorMsg "Expected array")

/-- The `args.iter().map(|arg| arg.as_identifier().map(|id| (id.name,
Float)))collect::<Result<..>>()` of `fn_macro`: fail-fast mapping of
the declared parameter identifiers to `(name, Float)` pairs. -/
def identifierParams : List ParsedAst → Except String (List (String × ItpTypeValue))
  | [] => .ok []
  | a :: rest =>
      match a.as_identifier with
      | .error m => .error m
      | .ok id =>
          match identifierParams rest with
          | .error m => .error m
          | .ok ps => .ok ((id.name, ItpTypeValue.float) :: ps)

/-- The `result.iter().map(|a| a.get_type()).collect()` of the call
branch of `interpret_ast`; an element's `get_type` panic propagates. -/
def nodeTypes : List ItpAst → Option (List ItpTypeValue)
  | [] => some []
  | a :: rest =>
      match a.get_type, nodeTypes rest with
      | some t, some ts => some (t :: ts)
      | _, _ => none

/-- The native-function registry installed by `add_native_fns`
(`interpreter/native_fns.rs`), in insertion order. -/
def nativeFnsBindings : List (String × ItpValue) :=
  [ ("+", .nativeFunction "+" [] [("a", .float), ("b", .float)] false .float true)
  , ("-", .nativeFunction "-" [] [("a", .float), ("b", .float)] false .float true)
  , ("*", .nativeFunction "*" [] [("a", .float), ("b", .float)] false .float true)
  , ("/", .nativeFunction "/" [] [("a", .float), ("b", .float)] false .float true)
  , ("==", .nativeFunction "==" ["T"]
      [("a", .generic "T"), ("b", .generic "T")] false .bool true)
  , ("get", .nativeFunction "get" ["T"]
      [("array", .array (.generic "T")), ("index", .float)] false (.generic "T") true)
  , ("printf", .nativeFunction "printf" [] [("format", .string)] true .void false)
  ]

/-- The interpreter's initial state (`Interpreter::new`): one global
scope holding the native functions. -/
def initialHeap : Heap :=
  [⟨none, nativeFnsBindings⟩]

/-!
`Interpreter::interpret_ast` from `interpreter/mod.rs`, mutually with
the built-in macro expanders of `interpreter/macros.rs`.  The macro
table is the static map `{fn, set, if, while}`; dispatch is inlined as
a name match.  `fn_macro` indexes `ast[0]` / `ast[1]` without an arity
check, so those out-of-bounds accesses are panics.  The `WrongType`
error message in the source interpolates `{:?}` dumps of the two types;
the dump text is elided here (only the discriminating prefix and the
index are kept).
-/
mutual

def interpretAst (ast : ParsedAst) (h : Heap) (s : Nat) : Res (List ItpAst × Heap) :=
  match ast with
  | .mk k line column =>
      match k with
      | .intL v => .ok ([.mk (.constant (.int v)) line column], h)
      | .floatL v => .ok ([.mk (.constant (.float v)) line column], h)
      | .stringL v => .ok ([.mk (.constant (.string v)) line column], h)
      | .charL v => .ok ([.mk (.constant (.char v)) line column], h)
      | .boolL v => .ok ([.mk (.constant (.bool v)) line column], h)
      | .arrayL values => interpretList values h s
      | .identifier id =>
          match id.kind with
          | .varId =>
              match h.scopeGet s id.name with
              | none => .err (ast.errorMsg ("Variable " ++ id.name ++ " not found"))
              | some v =>
                  match v with
                  | .constant c => .ok ([.mk (.constant c) line column], h)
                  | .param i t => .ok ([.mk (.param i id t) line column], h)
                  | _ =>
                      match v.get_type with
                      | some t => .ok ([.mk (.variableK id t) line column], h)
                      | none => .panic "Array with different types"
          | .macroId => .err (ast.errorMsg "Macro not allowed here")
          | .typeId => .err (ast.errorMsg "Type not allowed here")
      | .call name args =>
          match name.kind with
          | .macroId =>
              if name.name = "fn" then fnMacro args h s
              else if name.name = "set" then setMacro args h s
              else if name.name = "if" then ifMacro args h s
              else if name.name = "while" then whileMacro args h s
              else .err (ast.errorMsg ("Macro " ++ name.name ++ " not found"))
          | .varId =>
              match h.scopeGet s name.name with
              | none => .err (ast.errorMsg ("Function " ++ name.name ++ " not found"))
              | some func =>
                  match func with
                  | .function _ g p v _ r => resolveCall ast name args g p v r h s
                  | .unItpedFunction _ g p v _ r => resolveCall ast name args g p v r h s
                  | .nativeFunction _ g p v r _ => resolveCall ast name args g p v r h s
                  | _ => .err (ast.errorMsg (name.name ++ " is not a function"))
          | .typeId => .err (ast.errorMsg "Type not allowed here")
termination_by (sizeOf ast, 2)

/-- The function-like arm of the call branch: new child scope, lower
the arguments in it, `check_params` on the lowered argument types, and
build the `Call` node.  The generics map of a successful check is
discarded (`IFPCheck::Ok => Ok(())`), and `result` is
`return_type.clone()` verbatim. -/
def resolveCall (ast : ParsedAst) (name : Identifier) (args : List ParsedAst)
    (generics : List String) (parameters : List (String × ItpTypeValue))
    (variadic : Bool) (returnType : ItpTypeValue) (h : Heap) (s : Nat) :
    Res (List ItpAst × Heap) :=
  match interpretList args (h ++ [⟨some s, []⟩]) h.length with
  | .err m => .err m
  | .panic m => .panic m
  | .ok (argNodes, h2) =>
      match nodeTypes argNodes with
      | none => .panic "Array with different types"
      | some tys =>
          match ItpFunctionParameters.check_params ⟨generics, parameters, variadic⟩ tys with
          | .ok _ =>
              .ok ([.mk (.call name argNodes returnType) ast.line ast.column], h2)
          | .notEnoughParameters => .err (ast.errorMsg "Not enough parameters")
          | .tooManyParameters => .err (ast.errorMsg "Too many parameters")
          | .wrongType i _ _ =>
              .err (ast.errorMsg ("Wrong type for parameter " ++ toString i))
termination_by (sizeOf args, 1)

def interpretList (asts : List ParsedAst) (h : Heap) (s : Nat) :
    Res (List ItpAst × Heap) :=
  match asts with
  | [] => .ok ([], h)
  | a :: rest =>
      match interpretAst a h s with
      | .err m => .err m
      | .panic m => .panic m
      | .ok (ns, h1) =>
          match interpretList rest h1 s with
          | .err m => .err m
          | .panic m => .panic m
          | .ok (ms, h2) => .ok (ns ++ ms, h2)
termination_by (sizeOf asts, 0)

/-- `fn_macro` from `interpreter/macros.rs`.  `ast[0]` and `ast[1]` are
indexed before any length check, so zero arguments (and one argument
whose identifier extraction succeeds) panic with an index
out-of-bounds. -/
def fnMacro (args : List ParsedAst) (h : Heap) (s : Nat) :
    Res (List ItpAst × Heap) :=
  match args with
  | [] => .panic "index out of bounds: the len is 0 but the index is 0"
  | [nameAst] =>
      match nameAst.as_identifier with
      | .error m => .err m
      | .ok _ => .panic "index out of bounds: the len is 1 but the index is 1"
  | nameAst :: argsAst :: body =>
      match nameAst.as_identifier with
      | .error m => .err m
      | .ok nameId =>
          match argsAst.as_array with
          | .error m => .err m
          | .ok argList =>
              match identifierParams argList with
              | .error m => .err m
              | .ok params =>
                  match h.scopeSet s nameId.name
                      (.unItpedFunction nameId.name [] params false body .float) with
                  | .error e => .err e.message
                  | .ok h' => .ok ([], h')

/-- `set_macro` from `interpreter/macros.rs`. -/
def setMacro (args : List ParsedAst) (h : Heap) (s : Nat) :
    Res (List ItpAst × Heap) :=
  match args with
  | [nameAst, valueAst] =>
      match nameAst.as_identifier with
      | .error m => .err m
      | .ok nameId =>
          match interpretAst valueAst h s with
          | .err m => .err m
          | .panic m => .panic m
          | .ok (vals, h1) =>
              match vals with
              | [v] =>
                  match v.get_type with
                  | none => .panic "Array with different types"
                  | some t =>
                      match h1.scopeSetOrReplace s nameId.name (.named nameId t) with
                      | .ok h2 =>
                          .ok ([.mk (.setVariable nameId v) nameAst.line nameAst.column], h2)
                      | .err e => .err e.message
                      | .panic => .panic "Array with different types"
              | _ => .err "Expected single value"
  | _ => .err "Expected 2 arguments"
termination_by (sizeOf args, 1)

/-- `if_macro` from `interpreter/macros.rs`: all three subexpressions
are lowered before any singleton check. -/
def ifMacro (args : List ParsedAst) (h : Heap) (s : Nat) :
    Res (List ItpAst × Heap) :=
  match args with
  | [condAst, thenAst, elseAst] =>
      match interpretAst condAst h s with
      | .err m => .err m
      | .panic m => .panic m
      | .ok (conds, h1) =>
          match interpretAst thenAst h1 s with
          | .err m => .err m
          | .panic m => .panic m
          | .ok (thens, h2) =>
              match interpretAst elseAst h2 s with
              | .err m => .err m
              | .panic m => .panic m
              | .ok (elses, h3) =>
                  match conds with
                  | [c] =>
                      match thens with
                      | [t] =>
                          match elses with
                          | [e] =>
                              .ok ([.mk (.conditional c t e)
                                  condAst.line condAst.column], h3)
                          | _ => .err "Expected single else"
                      | _ => .err "Expected single then"
                  | _ => .err "Expected single condition"
  | _ => .err "Expected 3 arguments"
termination_by (sizeOf args, 1)

/-- `while_macro` from `interpreter/macros.rs`. -/
def whileMacro (args : List ParsedAst) (h : Heap) (s : Nat) :
    Res (List ItpAst × Heap) :=
  match args with
  | [condAst, bodyAst] =>
      match interpretAst condAst h s with
      | .err m => .err m
      | .panic m => .panic m
      | .ok (conds, h1) =>
          match interpretAst bodyAst h1 s with
          | .err m => .err m
          | .panic m => .panic m
          | .ok (bodies, h2) =>
              match conds with
              | [c] =>
                  match bodies with
                  | [b] =>
                      .ok ([.mk (.loop c b) condAst.line condAst.column], h2)
                  | _ => .err "Expected single body"
              | _ => .err "Expected single condition"
  | _ => .err "Expected 2 arguments"
termination_by (sizeOf args, 1)

end

/-- The parameter-binding loop of `interpret_uninterpreted_functions`:
`Param(i, ty)` bindings installed into the fresh child scope `c`, index
`i` running from 0; a duplicate parameter name makes `Scope::set`
fail and the error propagates. -/
def bindParams (h : Heap) (c : Nat) :
    Nat → List (String × ItpTypeValue) → Except ScopeErr Heap
  | _, [] => .ok h
  | i, (name, ty) :: rest =>
      match h.scopeSet c name (.param i ty) with
      | .error e => .error e
      | .ok h' => bindParams h' c (i + 1) rest

/-- The per-placeholder work of `interpret_uninterpreted_functions`:
one fresh child scope of the global scope, each declared parameter
bound as `Param(index, type)` in it, and the stored raw body lowered
statement by statement in that scope, results concatenated. -/
def lowerFunctionBody (h : Heap) (parameters : List (String × ItpTypeValue))
    (body : List ParsedAst) : Res (List ItpAst × Heap) :=
  let c := h.length
  let h1 := h ++ [⟨some 0, []⟩]
  match bindParams h1 c 0 parameters with
  | .error e => .err e.message
  | .ok h2 => interpretList body h2 c

/-- The iteration of `interpret_uninterpreted_functions` over the
global bindings: every `UnItpedFunction` binding is lowered and an
entry `(key, Function {...})` is collected into `new_functions`; other
bindings are skipped.  (In the source the iteration holds a `RefCell`
borrow of the global scope for its whole duration, so on every run
that completes without a borrow panic the iterated sequence is exactly
this snapshot.) -/
def processUninterpreted (h : Heap) :
    List (String × ItpValue) → Res (List (String × ItpValue) × Heap)
  | [] => .ok ([], h)
  | (bname, v) :: rest =>
      match v with
      | .unItpedFunction fnName generics parameters variadic body returnType =>
          match lowerFunctionBody h parameters body with
          | .err m => .err m
          | .panic m => .panic m
          | .ok (ibody, h1) =>
              match processUninterpreted h1 rest with
              | .err m => .err m
              | .panic m => .panic m
              | .ok (ns, h2) =>
                  .ok ((bname,
                    .function fnName generics parameters variadic ibody returnType) :: ns, h2)
      | _ => processUninterpreted h rest

/-- The final loop of `interpret_uninterpreted_functions`: each
collected `(name, Function {...})` replaces the placeholder via
`Scope::replace` on the global scope, errors propagating. -/
def replaceAll (h : Heap) : List (String × ItpValue) → Res Heap
  | [] => .ok h
  | (n, v) :: rest =>
      match h.scopeReplace 0 n v with
      | .ok h' => replaceAll h' rest
      | .err e => .err e.message
      | .panic => .panic "Array with different types"

/-- `Interpreter::interpret_uninterpreted_functions` from
`interpreter/mod.rs` (pass 2). -/
def interpret_uninterpreted_functions (h : Heap) : Res Heap :=
  match processUninterpreted h (h.scopeAt 0).bindings with
  | .err m => .err m
  | .panic m => .panic m
  | .ok (newFns, h1) => replaceAll h1 newFns

/-- The pass-1 loop of `Interpreter::interpret`: every top-level form
is lowered against the global scope (index 0) in source order; the
lowered nodes themselves are discarded. -/
def interpretTopLevel (h : Heap) : List ParsedAst → Res Heap
  | [] => .ok h
  | a :: rest =>
      match interpretAst a h 0 with
      | .err m => .err m
      | .panic m => .panic m
      | .ok (_, h1) => interpretTopLevel h1 rest

/-- `Interpreter::interpret` from `interpreter/mod.rs`, starting from
an arbitrary interpreter state. -/
def interpretFrom (h : Heap) (prog : List ParsedAst) : Res Heap :=
  match interpretTopLevel h prog with
  | .err m => .err m
  | .panic m => .panic m
  | .ok h1 => interpret_uninterpreted_functions h1

/-- `Interpreter::new()` followed by `interpret(prog)`. -/
def interpret (prog : List ParsedAst) : Res Heap :=
  interpretFrom initialHeap prog

/-- The uniform signature view of the three function-like bindings
(`Function`, `UnItpedFunction`, `NativeFunction`): generics, named
parameters, variadic flag, return type. -/
def funcSignature : ItpValue →
    Option (List String × List (String × ItpTypeValue) × Bool × ItpTypeValue)
  | .function _ g p v _ r => some (g, p, v, r)
  | .unItpedFunction _ g p v _ r => some (g, p, v, r)
  | .nativeFunction _ g p v r _ => some (g, p, v, r)
  | _ => none

/-! ## Supporting lemmas -/

theorem mem_dedupTypes : ∀ (ts : List ItpTypeValue) (x : ItpTypeValue),
    x ∈ dedupTypes ts ↔ x ∈ ts := by
  intro ts
  induction ts with
  | nil => simp [dedupTypes]
  | cons t ts ih =>
      intro x
      simp only [dedupTypes]
      by_cases ht : t ∈ dedupTypes ts
      · simp only [ht, if_pos]
        rw [ih]
        constructor
        · intro hx; exact List.mem_cons_of_mem _ hx
        · intro hx
          rcases List.mem_cons.mp hx with h | h
          · subst h; exact (ih x).mp ht
          · exact h
      · simp only [ht, if_neg, not_false_iff]
        simp only [List.mem_cons, ih]

theorem dedupTypes_eq_nil : ∀ (ts : List ItpTypeValue),
    dedupTypes ts = [] ↔ ts = [] := by
  intro ts
  induction ts with
  | nil => simp [dedupTypes]
  | cons t ts ih =>
      simp only [dedupTypes]
      by_cases ht : t ∈ dedupTypes ts
      · simp only [ht, if_pos]
        constructor
        · intro h; rw [h] at ht; simp at ht
        · intro h; simp at h
      · simp [ht]

theorem dedupTypes_singleton : ∀ (ts : List ItpTypeValue) (t : ItpTypeValue),
    dedupTypes ts = [t] ↔ ts ≠ [] ∧ ∀ x ∈ ts, x = t := by
  intro ts
  induction ts with
  | nil => simp [dedupTypes]
  | cons u ts ih =>
      intro t
      simp only [dedupTypes]
      by_cases hu : u ∈ dedupTypes ts
      · simp only [hu, if_pos, ih]
        constructor
        · rintro ⟨hne, hall⟩
          refine ⟨by simp, ?_⟩
          intro x hx
          rcases List.mem_cons.mp hx with h | h
          · rw [h]; exact hall _ ((mem_dedupTypes ts u).mp hu)
          · exact hall _ h
        · rintro ⟨-, hall⟩
          have hmem := (mem_dedupTypes ts u).mp hu
          refine ⟨?_, fun x hx => hall x (List.mem_cons_of_mem _ hx)⟩
          intro hnil; rw [hnil] at hmem; simp at hmem
      · simp only [hu, if_neg, not_false_iff]
        constructor
        · intro h
          rw [List.cons.injEq] at h
          obtain ⟨hut, hnil⟩ := h
          have := (dedupTypes_eq_nil ts).mp hnil
          subst this; subst hut
          exact ⟨by simp, by simp⟩
        · rintro ⟨-, hall⟩
          have hut : u = t := hall u (by simp)
          have hts : ts = [] := by
            by_contra hne
            have : dedupTypes ts = [t] := (ih t).mpr ⟨hne, fun x hx => hall x (List.mem_cons_of_mem _ hx)⟩
            rw [this] at hu
            simp [hut] at hu
          subst hts; subst hut
          simp [dedupTypes]

theorem elementTypes_none : ∀ (vs : List ItpValue),
    elementTypes vs = none → ∃ v ∈ vs, ItpValue.get_type v = none := by
  intro vs
  induction vs with
  | nil => intro h; simp [elementTypes] at h
  | cons v vs ih =>
      intro h
      simp only [elementTypes] at h
      cases hv : ItpValue.get_type v with
      | none => exact ⟨v, by simp, hv⟩
      | some t =>
          cases hvs : elementTypes vs with
          | none =>
              obtain ⟨w, hw, hwt⟩ := ih hvs
              exact ⟨w, List.mem_cons_of_mem _ hw, hwt⟩
          | some ts => rw [hv, hvs] at h; simp at h

theorem elementTypes_some : ∀ (vs : List ItpValue) (ts : List ItpTypeValue),
    elementTypes vs = some ts →
    (ts = [] ↔ vs = []) ∧
    ∀ t, (∀ x ∈ ts, x = t) ↔ (∀ v ∈ vs, ItpValue.get_type v = some t) := by
  intro vs
  induction vs with
  | nil =>
      intro ts h
      simp only [elementTypes] at h
      cases h
      simp
  | cons v vs ih =>
      intro ts h
      simp only [elementTypes] at h
      cases hv : ItpValue.get_type v with
      | none => rw [hv] at h; simp at h
      | some t0 =>
          cases hvs : elementTypes vs with
          | none => rw [hv, hvs] at h; simp at h
          | some ts0 =>
              rw [hv, hvs] at h
              cases h
              obtain ⟨hnil, hall⟩ := ih ts0 hvs
              refine ⟨by simp, ?_⟩
              intro t
              constructor
              · intro hx w hw
                rcases List.mem_cons.mp hw with h | h
                · subst h; rw [hv, hx t0 (by simp)]
                · exact ((hall t).mp fun x hmem => hx x (List.mem_cons_of_mem _ hmem)) w h
              · intro hv' x hx
                rcases List.mem_cons.mp hx with h | h
                · subst h
                  have h2 := hv' v (by simp)
                  rw [hv] at h2
                  exact Option.some.inj h2
                · exact ((hall t).mpr fun w hw => hv' w (List.mem_cons_of_mem _ hw)) x h

theorem get_type_array_none (vs : List ItpValue) (h : elementTypes vs = none) :
    ItpConstantValue.get_type (.array vs) = none := by
  simp only [ItpConstantValue.get_type, h]

theorem get_type_array_some (vs : List ItpValue) (ts : List ItpTypeValue)
    (h : elementTypes vs = some ts) :
    ItpConstantValue.get_type (.array vs) =
      (match dedupTypes ts with
        | [u] => some (ItpTypeValue.array u)
        | _ => none) := by
  simp only [ItpConstantValue.get_type, h]

/-! ## Heap evolution relations (for the pass-2 invariant)

During lowering, the bindings of any scope other than the current one
can change only through the replace path of `set_or_replace`, which
installs a `Named` binding of the same type.  `ValRel`, `BindsRel` and
`HeapExtends` capture exactly that. -/

/-- How a single stored value can evolve under lowering performed with
a different current scope: unchanged, or overwritten by a `Named`
binding whose type equals the old value's type. -/
def ValRel (w w' : ItpValue) : Prop :=
  w' = w ∨ ∃ id t, w' = ItpValue.named id t ∧ w.get_type = some t

/-- Pointwise evolution of a bindings list: same keys in the same
positions, `ValRel` values. -/
def BindsRel (olds news : List (String × ItpValue)) : Prop :=
  List.Forall₂ (fun o n => n.1 = o.1 ∧ ValRel o.2 n.2) olds news

/-- Heap evolution as seen from current scope `s`: the heap only
grows, parents of existing scopes never change, and the bindings of
every pre-existing scope other than `s` evolve by `BindsRel`. -/
def HeapExtends (h h' : Heap) (s : Nat) : Prop :=
  h.length ≤ h'.length ∧
  (∀ g, g < h.length → (h'.scopeAt g).parent = (h.scopeAt g).parent) ∧
  (∀ g, g < h.length → g ≠ s → BindsRel (h.scopeAt g).bindings (h'.scopeAt g).bindings)

/-- Every scope's bindings list has pairwise-distinct keys. -/
def HeapNodup (h : Heap) : Prop :=
  ∀ sc ∈ h, (sc.bindings.map Prod.fst).Nodup

/-- The `UnItpedFunction` discriminator. -/
def ItpValue.isUnItped : ItpValue → Prop
  | .unItpedFunction _ _ _ _ _ _ => True
  | _ => False

theorem valRel_refl (w : ItpValue) : ValRel w w := Or.inl rfl

theorem valRel_trans {a b c : ItpValue} (h1 : ValRel a b) (h2 : ValRel b c) :
    ValRel a c := by
  rcases h2 with rfl | ⟨id, t, rfl, hbt⟩
  · exact h1
  · rcases h1 with rfl | ⟨id', t', rfl, hat⟩
    · exact Or.inr ⟨id, t, rfl, hbt⟩
    · refine Or.inr ⟨id, t, rfl, ?_⟩
      simp only [ItpValue.get_type, Option.some.injEq] at hbt
      rw [hbt] at hat
      exact hat

theorem valRel_not_unItped {a b : ItpValue} (h : ValRel a b)
    (ha : ¬ a.isUnItped) : ¬ b.isUnItped := by
  rcases h with rfl | ⟨id, t, rfl, -⟩
  · exact ha
  · simp [ItpValue.isUnItped]

theorem bindsRel_refl (binds : List (String × ItpValue)) : BindsRel binds binds :=
  List.forall₂_same.mpr (fun _ _ => ⟨rfl, valRel_refl _⟩)

theorem bindsRel_trans {a b c : List (String × ItpValue)}
    (h1 : BindsRel a b) (h2 : BindsRel b c) : BindsRel a c := by
  induction h1 generalizing c with
  | nil => cases h2; exact List.Forall₂.nil
  | cons hab h1' ih =>
      cases h2 with
      | cons hbc h2' =>
          exact List.Forall₂.cons
            ⟨hbc.1.trans hab.1, valRel_trans hab.2 hbc.2⟩ (ih h2')

theorem bindsRel_lookup {olds news : List (String × ItpValue)}
    (h : BindsRel olds news) (k : String) :
    (olds.lookup k = none → news.lookup k = none) ∧
    (∀ w', news.lookup k = some w' →
      ∃ w, olds.lookup k = some w ∧ ValRel w w') := by
  induction h with
  | nil => simp [List.lookup]
  | @cons o n olds' news' hon htail ih =>
      obtain ⟨ko, vo⟩ := o
      obtain ⟨kn, vn⟩ := n
      obtain ⟨hk, hv⟩ := hon
      simp only at hk hv
      rw [hk]
      by_cases hkk : (k == ko) = true
      · constructor
        · intro hl
          simp only [List.lookup, hkk] at hl
          exact absurd hl (by simp)
        · intro w' hl
          simp only [List.lookup, hkk, Option.some.injEq] at hl ⊢
          subst hl
          exact ⟨vo, rfl, hv⟩
      · have hkk' : (k == ko) = false := by simpa using hkk
        constructor
        · intro hl
          simp only [List.lookup, hkk'] at hl ⊢
          exact ih.1 hl
        · intro w' hl
          simp only [List.lookup, hkk'] at hl ⊢
          exact ih.2 w' hl

theorem heapExtends_refl (h : Heap) (s : Nat) : HeapExtends h h s :=
  ⟨le_refl _, fun _ _ => rfl, fun _ _ _ => bindsRel_refl _⟩

theorem heapExtends_trans {h1 h2 h3 : Heap} {s : Nat}
    (a : HeapExtends h1 h2 s) (b : HeapExtends h2 h3 s) : HeapExtends h1 h3 s := by
  obtain ⟨al, ap, ab⟩ := a
  obtain ⟨bl, bp, bb⟩ := b
  refine ⟨al.trans bl, ?_, ?_⟩
  · intro g hg
    rw [bp g (lt_of_lt_of_le hg al), ap g hg]
  · intro g hg hs
    exact bindsRel_trans (ab g hg hs) (bb g (lt_of_lt_of_le hg al) hs)

/-! ### Association-list and arena lemmas -/

theorem insertAssoc_lookup_self {α : Type} (m : List (String × α)) (k : String)
    (v : α) : (insertAssoc m k v).lookup k = some v := by
  induction m with
  | nil => simp [insertAssoc, List.lookup]
  | cons e rest ih =>
      obtain ⟨k', v'⟩ := e
      by_cases hk : k' = k
      · subst hk; simp [insertAssoc, List.lookup]
      · have hbeq : (k == k') = false := by
          simp [beq_eq_false_iff_ne]; exact fun hc => hk hc.symm
        simp [insertAssoc, hk, List.lookup, hbeq, ih]

theorem insertAssoc_lookup_other {α : Type} (m : List (String × α)) (k k' : String)
    (v : α) (hne : k' ≠ k) : (insertAssoc m k v).lookup k' = m.lookup k' := by
  induction m with
  | nil =>
      have hbeq : (k' == k) = false := by simp [beq_eq_false_iff_ne, hne]
      simp [insertAssoc, List.lookup, hbeq]
  | cons e rest ih =>
      obtain ⟨k0, v0⟩ := e
      by_cases hk : k0 = k
      · rw [hk]
        have hbeq : (k' == k) = false := by simp [beq_eq_false_iff_ne, hne]
        simp [insertAssoc, List.lookup, hbeq]
      · by_cases hbk : (k' == k0) = true
        · simp [insertAssoc, hk, List.lookup, hbk]
        · have hbk' : (k' == k0) = false := by simpa using hbk
          simp [insertAssoc, hk, List.lookup, hbk', ih]

theorem insertAssoc_keys_sub {α : Type} (m : List (String × α)) (k : String)
    (v : α) (x : String) :
    x ∈ (insertAssoc m k v).map Prod.fst → x ∈ m.map Prod.fst ∨ x = k := by
  induction m with
  | nil => intro hx; simp [insertAssoc] at hx; exact Or.inr hx
  | cons e rest ih =>
      obtain ⟨k0, v0⟩ := e
      by_cases hk : k0 = k
      · subst hk
        intro hx
        simp only [insertAssoc, if_pos, List.map_cons, List.mem_cons] at hx
        rcases hx with rfl | hx
        · exact Or.inr rfl
        · exact Or.inl (by simp [hx])
      · intro hx
        simp only [insertAssoc, hk, if_neg, not_false_iff, List.map_cons,
          List.mem_cons] at hx
        rcases hx with rfl | hx
        · exact Or.inl (by simp)
        · rcases ih hx with h | h
          · exact Or.inl (by simp [List.mem_cons]; exact Or.inr (by simpa using h))
          · exact Or.inr h

theorem insertAssoc_nodup {α : Type} (m : List (String × α)) (k : String) (v : α)
    (hm : (m.map Prod.fst).Nodup) : ((insertAssoc m k v).map Prod.fst).Nodup := by
  induction m with
  | nil => simp [insertAssoc]
  | cons e rest ih =>
      obtain ⟨k0, v0⟩ := e
      simp only [List.map_cons, List.nodup_cons] at hm
      obtain ⟨hk0, hrest⟩ := hm
      by_cases hk : k0 = k
      · subst hk
        simp only [insertAssoc, if_pos, List.map_cons, List.nodup_cons]
        exact ⟨hk0, hrest⟩
      · simp only [insertAssoc, hk, if_neg, not_false_iff, List.map_cons,
          List.nodup_cons]
        refine ⟨?_, ih hrest⟩
        intro hmem
        rcases insertAssoc_keys_sub rest k v k0 hmem with h | h
        · exact hk0 h
        · exact hk h

theorem insertAssoc_bindsRel (m : List (String × ItpValue)) (k : String)
    (old v : ItpValue) (hlook : m.lookup k = some old) (hrel : ValRel old v) :
    BindsRel m (insertAssoc m k v) := by
  induction m with
  | nil => simp [List.lookup] at hlook
  | cons e rest ih =>
      obtain ⟨k0, v0⟩ := e
      by_cases hk : k0 = k
      · subst hk
        simp only [List.lookup, beq_self_eq_true, Option.some.injEq] at hlook
        subst hlook
        simp only [insertAssoc, if_pos]
        exact List.Forall₂.cons ⟨rfl, hrel⟩ (bindsRel_refl rest)
      · have hbeq : (k == k0) = false := by
          simp [beq_eq_false_iff_ne]; exact fun hc => hk hc.symm
        simp only [List.lookup, hbeq] at hlook
        simp only [insertAssoc, hk, if_neg, not_false_iff]
        exact List.Forall₂.cons ⟨rfl, valRel_refl _⟩ (ih hlook)

theorem length_setScope (h : Heap) (s : Nat) (sc : Scope) :
    (h.setScope s sc).length = h.length := by
  simp [Heap.setScope]

theorem scopeAt_setScope_ne (h : Heap) (s g : Nat) (sc : Scope) (hne : g ≠ s) :
    (h.setScope s sc).scopeAt g = h.scopeAt g := by
  simp only [Heap.setScope, Heap.scopeAt, List.getD_eq_getElem?_getD]
  rw [List.getElem?_set_ne (fun hc => hne hc.symm)]

theorem scopeAt_setScope_self (h : Heap) (s : Nat) (sc : Scope)
    (hs : s < h.length) : (h.setScope s sc).scopeAt s = sc := by
  simp only [Heap.setScope, Heap.scopeAt, List.getD_eq_getElem?_getD]
  rw [List.getElem?_set_self hs]
  rfl

theorem lookup_some_lt (h : Heap) (g : Nat) (name : String) (old : ItpValue)
    (hlook : (h.scopeAt g).bindings.lookup name = some old) : g < h.length := by
  by_contra hge
  have hdef : h.scopeAt g = ⟨none, []⟩ := by
    simp only [Heap.scopeAt, List.getD_eq_getElem?_getD]
    rw [List.getElem?_eq_none (by omega)]
    rfl
  rw [hdef] at hlook
  simp [List.lookup] at hlook

theorem scopeAt_append (h : Heap) (sc : Scope) (g : Nat) (hg : g < h.length) :
    (h ++ [sc]).scopeAt g = h.scopeAt g := by
  simp only [Heap.scopeAt, List.getD_eq_getElem?_getD]
  rw [List.getElem?_append_left hg]

theorem setScope_oob (h : Heap) (s : Nat) (sc : Scope) (hs : h.length ≤ s) :
    h.setScope s sc = h := by
  simp [Heap.setScope, List.set_eq_of_length_le hs]

theorem heapExtends_append (h : Heap) (sc : Scope) (s : Nat) :
    HeapExtends h (h ++ [sc]) s := by
  refine ⟨by simp, ?_, ?_⟩
  · intro g hg; rw [scopeAt_append h sc g hg]
  · intro g hg _; rw [scopeAt_append h sc g hg]; exact bindsRel_refl _

theorem scopeAt_nodup (h : Heap) (g : Nat) (hn : HeapNodup h) :
    ((h.scopeAt g).bindings.map Prod.fst).Nodup := by
  by_cases hg : g < h.length
  · apply hn
    simp only [Heap.scopeAt, List.getD_eq_getElem?_getD]
    rw [List.getElem?_eq_getElem hg]
    exact List.getElem_mem hg
  · have hdef : h.scopeAt g = ⟨none, []⟩ := by
      simp only [Heap.scopeAt, List.getD_eq_getElem?_getD]
      rw [List.getElem?_eq_none (by omega)]
      rfl
    rw [hdef]
    simp

theorem heapNodup_setScope (h : Heap) (s : Nat) (sc : Scope) (hn : HeapNodup h)
    (hsc : (sc.bindings.map Prod.fst).Nodup) : HeapNodup (h.setScope s sc) := by
  intro x hx
  rcases List.mem_or_eq_of_mem_set hx with hmem | rfl
  · exact hn x hmem
  · exact hsc

theorem heapNodup_append (h : Heap) (sc : Scope) (hn : HeapNodup h)
    (hsc : (sc.bindings.map Prod.fst).Nodup) : HeapNodup (h ++ [sc]) := by
  intro x hx
  rcases List.mem_append.mp hx with hmem | hmem
  · exact hn x hmem
  · rw [List.mem_singleton.mp hmem]; exact hsc

theorem scopeSet_ok (h : Heap) (s : Nat) (name : String) (v : ItpValue) (h' : Heap)
    (hok : h.scopeSet s name v = .ok h') :
    (h.scopeAt s).bindings.lookup name = none ∧
    h' = h.setScope s ⟨(h.scopeAt s).parent, insertAssoc (h.scopeAt s).bindings name v⟩ := by
  simp only [Heap.scopeSet] at hok
  split at hok
  · exact absurd hok (by simp)
  · refine ⟨?_, (Except.ok.inj hok).symm⟩
    rename_i hcond
    rw [← Option.not_isSome_iff_eq_none]
    simpa using hcond

theorem scopeSet_extends (h : Heap) (s : Nat) (name : String) (v : ItpValue)
    (h' : Heap) (hok : h.scopeSet s name v = .ok h') :
    HeapExtends h h' s ∧ h'.length = h.length ∧
    (∀ g, (h'.scopeAt g).parent = (h.scopeAt g).parent) ∧
    (HeapNodup h → HeapNodup h') := by
  obtain ⟨hlook, rfl⟩ := scopeSet_ok h s name v h' hok
  refine ⟨⟨by simp [length_setScope], ?_, ?_⟩, length_setScope h s _, ?_, ?_⟩
  · intro g _
    by_cases hg : g = s
    · subst hg
      by_cases hlt : g < h.length
      · rw [scopeAt_setScope_self h g _ hlt]
      · rw [setScope_oob h g _ (by omega)]
    · rw [scopeAt_setScope_ne h s g _ hg]
  · intro g _ hg
    rw [scopeAt_setScope_ne h s g _ hg]
    exact bindsRel_refl _
  · intro g
    by_cases hg : g = s
    · subst hg
      by_cases hlt : g < h.length
      · rw [scopeAt_setScope_self h g _ hlt]
      · rw [setScope_oob h g _ (by omega)]
    · rw [scopeAt_setScope_ne h s g _ hg]
  · intro hn
    exact heapNodup_setScope h s _ hn
      (insertAssoc_nodup _ name v (scopeAt_nodup h s hn))

theorem scopeReplace_ok_spec :
    ∀ (s : Nat) (h : Heap) (name : String) (v : ItpValue) (h' : Heap),
      h.scopeReplace s name v = .ok h' →
      ∃ g old ty, (h.scopeAt g).bindings.lookup name = some old ∧
        old.get_type = some ty ∧ v.get_type = some ty ∧
        h' = h.setScope g
          ⟨(h.scopeAt g).parent, insertAssoc (h.scopeAt g).bindings name v⟩ := by
  intro s
  induction s using Nat.strong_induction_on with
  | _ s ih =>
      intro h name v h' hok
      rw [Heap.scopeReplace.eq_def] at hok
      split at hok
      split at hok
      · rename_i old hlook
        cases hty : old.get_type with
        | none =>
            simp only [hty] at hok
            exact absurd hok (by simp)
        | some ty =>
            cases hty' : v.get_type with
            | none =>
                simp only [hty, hty'] at hok
                exact absurd hok (by simp)
            | some ty' =>
                simp only [hty, hty'] at hok
                by_cases he : ty = ty'
                · rw [if_neg (by simp [he])] at hok
                  refine ⟨s, old, ty, hlook, hty, ?_, (ScopeRes.ok.inj hok).symm⟩
                  exact congrArg some he.symm
                · rw [if_pos he] at hok
                  exact absurd hok (by simp)
      · rename_i hlook
        cases hp : (h.scopeAt s).parent with
        | some p =>
            simp only [hp] at hok
            by_cases hps : p < s
            · rw [dif_pos hps] at hok
              exact ih p hps h name v h' hok
            · rw [dif_neg hps] at hok
              exact absurd hok (by simp)
        | none =>
            simp only [hp] at hok
            exact absurd hok (by simp)

/-- Combined heap-evolution conclusion of the lowering functions:
heap extension as seen from the current scope, and key-distinctness
preservation. -/
def MasterOk (h h' : Heap) (s : Nat) : Prop :=
  HeapExtends h h' s ∧ (HeapNodup h → HeapNodup h')

theorem masterOk_refl (h : Heap) (s : Nat) : MasterOk h h s :=
  ⟨heapExtends_refl h s, id⟩

theorem masterOk_trans {h h1 h2 : Heap} {s : Nat}
    (a : MasterOk h h1 s) (b : MasterOk h1 h2 s) : MasterOk h h2 s :=
  ⟨heapExtends_trans a.1 b.1, fun hn => b.2 (a.2 hn)⟩

theorem scopeReplace_named_extends (s : Nat) (h : Heap) (name : String)
    (id : Identifier) (t : ItpTypeValue) (h' : Heap)
    (hok : h.scopeReplace s name (.named id t) = .ok h') :
    h'.length = h.length ∧
    (∀ g', (h'.scopeAt g').parent = (h.scopeAt g').parent) ∧
    (∀ g', BindsRel (h.scopeAt g').bindings (h'.scopeAt g').bindings) ∧
    (HeapNodup h → HeapNodup h') := by
  obtain ⟨g, old, ty, hlook, hty, htv, rfl⟩ :=
    scopeReplace_ok_spec s h name (.named id t) h' hok
  have hg : g < h.length := lookup_some_lt h g name old hlook
  have htt : t = ty := by
    have h1 : (ItpValue.named id t).get_type = some t := rfl
    rw [h1] at htv
    exact Option.some.inj htv
  have hval : ValRel old (.named id t) := by
    right
    refine ⟨id, t, rfl, ?_⟩
    rw [hty, htt]
  refine ⟨length_setScope h g _, ?_, ?_, ?_⟩
  · intro g'
    by_cases hgg : g' = g
    · subst hgg; rw [scopeAt_setScope_self h g' _ hg]
    · rw [scopeAt_setScope_ne h g g' _ hgg]
  · intro g'
    by_cases hgg : g' = g
    · subst hgg
      rw [scopeAt_setScope_self h g' _ hg]
      exact insertAssoc_bindsRel _ name old _ hlook hval
    · rw [scopeAt_setScope_ne h g g' _ hgg]
      exact bindsRel_refl _
  · intro hn
    exact heapNodup_setScope h g _ hn
      (insertAssoc_nodup _ name _ (scopeAt_nodup h g hn))

theorem scopeSetOrReplace_named_extends (h : Heap) (s : Nat) (name : String)
    (id : Identifier) (t : ItpTypeValue) (h' : Heap)
    (hok : h.scopeSetOrReplace s name (.named id t) = .ok h') :
    MasterOk h h' s ∧ h'.length = h.length ∧
    (∀ g', (h'.scopeAt g').parent = (h.scopeAt g').parent) := by
  cases hrep : h.scopeReplace s name (.named id t) with
  | ok h2 =>
      simp only [Heap.scopeSetOrReplace, hrep] at hok
      obtain rfl : h2 = h' := ScopeRes.ok.inj hok
      obtain ⟨hlen, hpar, hbinds, hnd⟩ :=
        scopeReplace_named_extends s h name id t h2 hrep
      exact ⟨⟨⟨le_of_eq hlen.symm, fun g _ => hpar g, fun g _ _ => hbinds g⟩, hnd⟩,
        hlen, hpar⟩
  | err e =>
      cases e with
      | notDefined =>
          simp only [Heap.scopeSetOrReplace, hrep] at hok
          cases hset : h.scopeSet s name (.named id t) with
          | ok h2 =>
              simp only [hset] at hok
              obtain rfl : h2 = h' := ScopeRes.ok.inj hok
              obtain ⟨he, hlen, hpar, hnd⟩ := scopeSet_extends h s name _ h2 hset
              exact ⟨⟨he, hnd⟩, hlen, hpar⟩
          | error e2 =>
              simp only [hset] at hok
              exact absurd hok (by simp)
      | alreadyDefined =>
          simp only [Heap.scopeSetOrReplace, hrep] at hok
          exact absurd hok (by simp)
      | alreadyDefinedDifferentType =>
          simp only [Heap.scopeSetOrReplace, hrep] at hok
          exact absurd hok (by simp)
  | panic =>
      simp only [Heap.scopeSetOrReplace, hrep] at hok
      exact absurd hok (by simp)

theorem list_sizeOf_pos {α : Type} [SizeOf α] (l : List α) : 0 < sizeOf l := by
  cases l <;> simp_arith

theorem masterOk_call (h h2 : Heap) (s : Nat)
    (hm : MasterOk (h ++ [⟨some s, []⟩]) h2 h.length) : MasterOk h h2 s := by
  obtain ⟨⟨hlen, hpar, hbinds⟩, hnd⟩ := hm
  refine ⟨⟨?_, ?_, ?_⟩, ?_⟩
  · simp at hlen; omega
  · intro g hg
    have hg1 : g < (h ++ [(⟨some s, []⟩ : Scope)]).length := by simp; omega
    rw [hpar g hg1, scopeAt_append h _ g hg]
  · intro g hg _
    have hg1 : g < (h ++ [(⟨some s, []⟩ : Scope)]).length := by simp; omega
    have hb := hbinds g hg1 (by omega)
    rw [scopeAt_append h _ g hg] at hb
    exact hb
  · intro hn
    exact hnd (heapNodup_append h _ hn (by simp))

theorem fnMacro_masterOk (args : List ParsedAst) (h : Heap) (s : Nat)
    (res : List ItpAst) (h' : Heap) (hok : fnMacro args h s = .ok (res, h')) :
    MasterOk h h' s := by
  rcases args with _ | ⟨nameAst, _ | ⟨argsAst, body⟩⟩
  · simp [fnMacro] at hok
  · simp only [fnMacro] at hok
    cases hid : nameAst.as_identifier with
    | error m => simp [hid] at hok
    | ok nameId => simp [hid] at hok
  · simp only [fnMacro] at hok
    cases hid : nameAst.as_identifier with
    | error m => simp [hid] at hok
    | ok nameId =>
        simp only [hid] at hok
        cases harr : argsAst.as_array with
        | error m => simp [harr] at hok
        | ok argList =>
            simp only [harr] at hok
            cases hpar : identifierParams argList with
            | error m => simp [hpar] at hok
            | ok params =>
                simp only [hpar] at hok
                cases hset : h.scopeSet s nameId.name
                    (.unItpedFunction nameId.name [] params false body .float) with
                | error e => simp [hset] at hok
                | ok h2 =>
                    simp only [hset] at hok
                    simp only [Res.ok.injEq, Prod.mk.injEq] at hok
                    obtain ⟨-, rfl⟩ := hok
                    obtain ⟨he, -, -, hnd⟩ := scopeSet_extends h s nameId.name _ h2 hset
                    exact ⟨he, hnd⟩

theorem lowering_masterOk : ∀ n : Nat,
    (∀ (ast : ParsedAst) (h : Heap) (s : Nat) (res : List ItpAst) (h' : Heap),
      3 * sizeOf ast + 2 ≤ n → interpretAst ast h s = .ok (res, h') → MasterOk h h' s) ∧
    (∀ (args : List ParsedAst) (h : Heap) (s : Nat) (res : List ItpAst) (h' : Heap),
      3 * sizeOf args + 1 ≤ n →
      ((∀ (ast : ParsedAst) (name : Identifier) (g : List String)
          (p : List (String × ItpTypeValue)) (v : Bool) (r : ItpTypeValue),
        resolveCall ast name args g p v r h s = .ok (res, h') → MasterOk h h' s) ∧
       (setMacro args h s = .ok (res, h') → MasterOk h h' s) ∧
       (ifMacro args h s = .ok (res, h') → MasterOk h h' s) ∧
       (whileMacro args h s = .ok (res, h') → MasterOk h h' s))) ∧
    (∀ (asts : List ParsedAst) (h : Heap) (s : Nat) (res : List ItpAst) (h' : Heap),
      3 * sizeOf asts ≤ n → interpretList asts h s = .ok (res, h') → MasterOk h h' s) := by
  intro n
  induction n using Nat.strong_induction_on with
  | _ n ih =>
  refine ⟨?_, ?_, ?_⟩
  · -- interpretAst
    intro ast h s res h' hsz hok
    obtain ⟨k, line, column⟩ := ast
    cases k with
    | intL v =>
        simp only [interpretAst, Res.ok.injEq, Prod.mk.injEq] at hok
        obtain ⟨-, rfl⟩ := hok
        exact masterOk_refl h s
    | floatL v =>
        simp only [interpretAst, Res.ok.injEq, Prod.mk.injEq] at hok
        obtain ⟨-, rfl⟩ := hok
        exact masterOk_refl h s
    | stringL v =>
        simp only [interpretAst, Res.ok.injEq, Prod.mk.injEq] at hok
        obtain ⟨-, rfl⟩ := hok
        exact masterOk_refl h s
    | charL v =>
        simp only [interpretAst, Res.ok.injEq, Prod.mk.injEq] at hok
        obtain ⟨-, rfl⟩ := hok
        exact masterOk_refl h s
    | boolL v =>
        simp only [interpretAst, Res.ok.injEq, Prod.mk.injEq] at hok
        obtain ⟨-, rfl⟩ := hok
        exact masterOk_refl h s
    | arrayL values =>
        simp only [interpretAst] at hok
        have hsz' : 3 * sizeOf values < n := by simp at hsz; omega
        exact (ih (3 * sizeOf values) hsz').2.2 values h s res h' (le_refl _) hok
    | identifier id =>
        obtain ⟨idname, idkind⟩ := id
        cases idkind with
        | varId =>
            simp only [interpretAst] at hok
            cases hget : h.scopeGet s idname with
            | none => simp [hget] at hok
            | some v =>
                simp only [hget] at hok
                cases v with
                | constant c =>
                    simp only [Res.ok.injEq, Prod.mk.injEq] at hok
                    obtain ⟨-, rfl⟩ := hok
                    exact masterOk_refl h s
                | param i t =>
                    simp only [Res.ok.injEq, Prod.mk.injEq] at hok
                    obtain ⟨-, rfl⟩ := hok
                    exact masterOk_refl h s
                | named nid t =>
                    simp only [ItpValue.get_type, Res.ok.injEq, Prod.mk.injEq] at hok
                    obtain ⟨-, rfl⟩ := hok
                    exact masterOk_refl h s
                | function fn fg fp fv fb fr =>
                    simp only [ItpValue.get_type, Res.ok.injEq, Prod.mk.injEq] at hok
                    obtain ⟨-, rfl⟩ := hok
                    exact masterOk_refl h s
                | unItpedFunction fn fg fp fv fb fr =>
                    simp only [ItpValue.get_type, Res.ok.injEq, Prod.mk.injEq] at hok
                    obtain ⟨-, rfl⟩ := hok
                    exact masterOk_refl h s
                | nativeFunction fn fg fp fv fr fi =>
                    simp only [ItpValue.get_type, Res.ok.injEq, Prod.mk.injEq] at hok
                    obtain ⟨-, rfl⟩ := hok
                    exact masterOk_refl h s
        | macroId => simp [interpretAst] at hok
        | typeId => simp [interpretAst] at hok
    | call name args =>
        obtain ⟨nm, kd⟩ := name
        have hszargs : 3 * sizeOf args + 1 < n := by simp at hsz; omega
        cases kd with
        | macroId =>
            simp only [interpretAst] at hok
            split at hok
            · exact fnMacro_masterOk args h s res h' hok
            · split at hok
              · exact ((ih (3 * sizeOf args + 1) hszargs).2.1 args h s res h'
                  (le_refl _)).2.1 hok
              · split at hok
                · exact ((ih (3 * sizeOf args + 1) hszargs).2.1 args h s res h'
                    (le_refl _)).2.2.1 hok
                · split at hok
                  · exact ((ih (3 * sizeOf args + 1) hszargs).2.1 args h s res h'
                      (le_refl _)).2.2.2 hok
                  · exact absurd hok (by simp)
        | varId =>
            simp only [interpretAst] at hok
            cases hget : h.scopeGet s nm with
            | none => simp [hget] at hok
            | some func =>
                simp only [hget] at hok
                cases func with
                | param i t => simp at hok
                | constant c => simp at hok
                | named nid t => simp at hok
                | function fn fg fp fv fb fr =>
                    exact ((ih (3 * sizeOf args + 1) hszargs).2.1 args h s res h'
                      (le_refl _)).1 _ _ fg fp fv fr hok
                | unItpedFunction fn fg fp fv fb fr =>
                    exact ((ih (3 * sizeOf args + 1) hszargs).2.1 args h s res h'
                      (le_refl _)).1 _ _ fg fp fv fr hok
                | nativeFunction fn fg fp fv fr fi =>
                    exact ((ih (3 * sizeOf args + 1) hszargs).2.1 args h s res h'
                      (le_refl _)).1 _ _ fg fp fv fr hok
        | typeId => simp [interpretAst] at hok
  · -- resolveCall and the recursive macros
    intro args h s res h' hszB
    refine ⟨?_, ?_, ?_, ?_⟩
    · intro ast name g p v r hok
      simp only [resolveCall] at hok
      cases hIL : interpretList args (h ++ [⟨some s, []⟩]) h.length with
      | err m => simp [hIL] at hok
      | panic m => simp [hIL] at hok
      | ok pair =>
          obtain ⟨argNodes, h2⟩ := pair
          simp only [hIL] at hok
          have hm := (ih (3 * sizeOf args) (by omega)).2.2 args
            (h ++ [⟨some s, []⟩]) h.length argNodes h2 (le_refl _) hIL
          have hmc := masterOk_call h h2 s hm
          cases hNT : nodeTypes argNodes with
          | none => simp [hNT] at hok
          | some tys =>
              simp only [hNT] at hok
              cases hCP : ItpFunctionParameters.check_params ⟨g, p, v⟩ tys with
              | ok gens =>
                  simp only [hCP, Res.ok.injEq, Prod.mk.injEq] at hok
                  obtain ⟨-, rfl⟩ := hok
                  exact hmc
              | notEnoughParameters => simp [hCP] at hok
              | tooManyParameters => simp [hCP] at hok
              | wrongType i a b => simp [hCP] at hok
    · intro hok
      rcases args with _ | ⟨nameAst, _ | ⟨valueAst, _ | ⟨x, rest⟩⟩⟩
      · simp [setMacro] at hok
      · simp [setMacro] at hok
      · simp only [setMacro] at hok
        cases hid : nameAst.as_identifier with
        | error m => simp [hid] at hok
        | ok nameId =>
            simp only [hid] at hok
            cases hval : interpretAst valueAst h s with
            | err m => simp [hval] at hok
            | panic m => simp [hval] at hok
            | ok pair =>
                obtain ⟨vals, h1⟩ := pair
                simp only [hval] at hok
                have hszv : 3 * sizeOf valueAst + 2 < n := by
                  simp at hszB
                  have := list_sizeOf_pos ([] : List ParsedAst)
                  omega
                have hm1 := (ih (3 * sizeOf valueAst + 2) hszv).1 valueAst h s
                  vals h1 (le_refl _) hval
                rcases vals with _ | ⟨v, _ | ⟨w, ws⟩⟩
                · simp at hok
                · cases htype : v.get_type with
                  | none => simp [htype] at hok
                  | some t =>
                      simp only [htype] at hok
                      cases hsor : h1.scopeSetOrReplace s nameId.name
                          (.named nameId t) with
                      | ok h2 =>
                          simp only [hsor, Res.ok.injEq, Prod.mk.injEq] at hok
                          obtain ⟨-, rfl⟩ := hok
                          obtain ⟨hm2, -, -⟩ := scopeSetOrReplace_named_extends
                            h1 s nameId.name nameId t h2 hsor
                          exact masterOk_trans hm1 hm2
                      | err e => simp [hsor] at hok
                      | panic => simp [hsor] at hok
                · simp at hok
      · simp [setMacro] at hok
    · intro hok
      rcases args with _ | ⟨condAst, _ | ⟨thenAst, _ | ⟨elseAst, _ | ⟨x, rest⟩⟩⟩⟩
      · simp [ifMacro] at hok
      · simp [ifMacro] at hok
      · simp [ifMacro] at hok
      · simp only [ifMacro] at hok
        cases hc : interpretAst condAst h s with
        | err m => simp [hc] at hok
        | panic m => simp [hc] at hok
        | ok pairc =>
            obtain ⟨conds, h1⟩ := pairc
            simp only [hc] at hok
            cases ht : interpretAst thenAst h1 s with
            | err m => simp [ht] at hok
            | panic m => simp [ht] at hok
            | ok pairt =>
                obtain ⟨thens, h2⟩ := pairt
                simp only [ht] at hok
                cases he : interpretAst elseAst h2 s with
                | err m => simp [he] at hok
                | panic m => simp [he] at hok
                | ok paire =>
                    obtain ⟨elses, h3⟩ := paire
                    simp only [he] at hok
                    have hsz1 : 3 * sizeOf condAst + 2 < n := by simp at hszB; omega
                    have hsz2 : 3 * sizeOf thenAst + 2 < n := by simp at hszB; omega
                    have hsz3 : 3 * sizeOf elseAst + 2 < n := by simp at hszB; omega
                    have hm1 := (ih _ hsz1).1 condAst h s conds h1 (le_refl _) hc
                    have hm2 := (ih _ hsz2).1 thenAst h1 s thens h2 (le_refl _) ht
                    have hm3 := (ih _ hsz3).1 elseAst h2 s elses h3 (le_refl _) he
                    rcases conds with _ | ⟨c1, _ | ⟨c2, cs⟩⟩
                    · simp at hok
                    · rcases thens with _ | ⟨t1, _ | ⟨t2, ts⟩⟩
                      · simp at hok
                      · rcases elses with _ | ⟨e1, _ | ⟨e2, es⟩⟩
                        · simp at hok
                        · simp only [Res.ok.injEq, Prod.mk.injEq] at hok
                          obtain ⟨-, rfl⟩ := hok
                          exact masterOk_trans (masterOk_trans hm1 hm2) hm3
                        · simp at hok
                      · simp at hok
                    · simp at hok
      · simp [ifMacro] at hok
    · intro hok
      rcases args with _ | ⟨condAst, _ | ⟨bodyAst, _ | ⟨x, rest⟩⟩⟩
      · simp [whileMacro] at hok
      · simp [whileMacro] at hok
      · simp only [whileMacro] at hok
        cases hc : interpretAst condAst h s with
        | err m => simp [hc] at hok
        | panic m => simp [hc] at hok
        | ok pairc =>
            obtain ⟨conds, h1⟩ := pairc
            simp only [hc] at hok
            cases hb : interpretAst bodyAst h1 s with
            | err m => simp [hb] at hok
            | panic m => simp [hb] at hok
            | ok pairb =>
                obtain ⟨bodies, h2⟩ := pairb
                simp only [hb] at hok
                have hsz1 : 3 * sizeOf condAst + 2 < n := by simp at hszB; omega
                have hsz2 : 3 * sizeOf bodyAst + 2 < n := by simp at hszB; omega
                have hm1 := (ih _ hsz1).1 condAst h s conds h1 (le_refl _) hc
                have hm2 := (ih _ hsz2).1 bodyAst h1 s bodies h2 (le_refl _) hb
                rcases conds with _ | ⟨c1, _ | ⟨c2, cs⟩⟩
                · simp at hok
                · rcases bodies with _ | ⟨b1, _ | ⟨b2, bs⟩⟩
                  · simp at hok
                  · simp only [Res.ok.injEq, Prod.mk.injEq] at hok
                    obtain ⟨-, rfl⟩ := hok
                    exact masterOk_trans hm1 hm2
                  · simp at hok
                · simp at hok
      · simp [whileMacro] at hok
  · -- interpretList
    intro asts h s res h' hszC hok
    cases asts with
    | nil =>
        simp only [interpretList, Res.ok.injEq, Prod.mk.injEq] at hok
        obtain ⟨-, rfl⟩ := hok
        exact masterOk_refl h s
    | cons a rest =>
        simp only [interpretList] at hok
        cases hA : interpretAst a h s with
        | err m => simp [hA] at hok
        | panic m => simp [hA] at hok
        | ok pairA =>
            obtain ⟨ns, h1⟩ := pairA
            simp only [hA] at hok
            cases hR : interpretList rest h1 s with
            | err m => simp [hR] at hok
            | panic m => simp [hR] at hok
            | ok pairR =>
                obtain ⟨ms, h2⟩ := pairR
                simp only [hR] at hok
                have hposr := list_sizeOf_pos rest
                have hsz1 : 3 * sizeOf a + 2 < n := by simp at hszC; omega
                have hsz2 : 3 * sizeOf rest < n := by simp at hszC; omega
                have hm1 := (ih _ hsz1).1 a h s ns h1 (le_refl _) hA
                have hm2 := (ih _ hsz2).2.2 rest h1 s ms h2 (le_refl _) hR
                simp only [Res.ok.injEq, Prod.mk.injEq] at hok
                obtain ⟨-, rfl⟩ := hok
                exact masterOk_trans hm1 hm2

theorem lookup_mem {α : Type} :
    ∀ (m : List (String × α)) (k : String) (v : α),
      m.lookup k = some v → (k, v) ∈ m := by
  intro m
  induction m with
  | nil => intro k v h; simp [List.lookup] at h
  | cons e rest ih =>
      intro k v h
      obtain ⟨k0, v0⟩ := e
      by_cases hk : (k == k0) = true
      · simp only [List.lookup, hk, Option.some.injEq] at h
        subst h
        have : k = k0 := by simpa using hk
        subst this
        simp
      · have hk' : (k == k0) = false := by simpa using hk
        simp only [List.lookup, hk'] at h
        exact List.mem_cons_of_mem _ (ih k v h)

theorem lookup_none_of_not_mem_keys {α : Type} :
    ∀ (m : List (String × α)) (k : String),
      k ∉ m.map Prod.fst → m.lookup k = none := by
  intro m
  induction m with
  | nil => intro k _; simp [List.lookup]
  | cons e rest ih =>
      intro k hk
      obtain ⟨k0, v0⟩ := e
      simp only [List.map_cons, List.mem_cons] at hk
      push_neg at hk
      have hbeq : (k == k0) = false := by simp [beq_eq_false_iff_ne]; exact hk.1
      simp only [List.lookup, hbeq]
      exact ih k hk.2

theorem lookup_isSome_of_mem {α : Type} :
    ∀ (m : List (String × α)) (k : String) (v : α),
      (k, v) ∈ m → ∃ w, m.lookup k = some w := by
  intro m
  induction m with
  | nil => intro k v h; simp at h
  | cons e rest ih =>
      intro k v h
      obtain ⟨k0, v0⟩ := e
      by_cases hk : (k == k0) = true
      · exact ⟨v0, by simp [List.lookup, hk]⟩
      · have hk' : (k == k0) = false := by simpa using hk
        rcases List.mem_cons.mp h with heq | hmem
        · have : k = k0 := congrArg Prod.fst heq
          rw [this] at hk'
          simp at hk'
        · obtain ⟨w, hw⟩ := ih k v hmem
          exact ⟨w, by simp [List.lookup, hk', hw]⟩

theorem lookup_eq_of_mem_nodup {α : Type} :
    ∀ (m : List (String × α)) (k : String) (v : α),
      (m.map Prod.fst).Nodup → (k, v) ∈ m → m.lookup k = some v := by
  intro m
  induction m with
  | nil => intro k v _ h; simp at h
  | cons e rest ih =>
      intro k v hnd h
      obtain ⟨k0, v0⟩ := e
      simp only [List.map_cons, List.nodup_cons] at hnd
      rcases List.mem_cons.mp h with heq | hmem
      · obtain ⟨hk, hv⟩ := Prod.mk.injEq .. ▸ heq
        subst hk; subst hv
        simp [List.lookup]
      · have hkne : k ≠ k0 := by
          intro hc
          subst hc
          exact hnd.1 (List.mem_map.mpr ⟨(k, v), hmem, rfl⟩)
        have hbeq : (k == k0) = false := by simp [beq_eq_false_iff_ne, hkne]
        simp only [List.lookup, hbeq]
        exact ih k v hnd.2 hmem

theorem bindParams_extends :
    ∀ (ps : List (String × ItpTypeValue)) (h : Heap) (c : Nat) (i : Nat) (h' : Heap),
      bindParams h c i ps = .ok h' →
      MasterOk h h' c ∧ (∀ g', (h'.scopeAt g').parent = (h.scopeAt g').parent) ∧
      h'.length = h.length := by
  intro ps
  induction ps with
  | nil =>
      intro h c i h' hok
      simp only [bindParams] at hok
      obtain rfl : h = h' := Except.ok.inj hok
      exact ⟨masterOk_refl h c, fun _ => rfl, rfl⟩
  | cons e rest ih =>
      intro h c i h' hok
      obtain ⟨name, ty⟩ := e
      simp only [bindParams] at hok
      cases hset : h.scopeSet c name (.param i ty) with
      | error e2 => simp [hset] at hok
      | ok hB =>
          simp only [hset] at hok
          obtain ⟨hmB, hlenB, hparB, hndB⟩ := scopeSet_extends h c name _ hB hset
          obtain ⟨hm2, hpar2, hlen2⟩ := ih hB c (i + 1) h' hok
          exact ⟨masterOk_trans ⟨hmB, hndB⟩ hm2,
            fun g' => (hpar2 g').trans (hparB g'), hlen2.trans hlenB⟩

theorem lowerFunctionBody_mono (h : Heap) (params : List (String × ItpTypeValue))
    (body : List ParsedAst) (ibody : List ItpAst) (h2 : Heap)
    (hok : lowerFunctionBody h params body = .ok (ibody, h2)) :
    h.length ≤ h2.length ∧
    (∀ g, g < h.length → (h2.scopeAt g).parent = (h.scopeAt g).parent) ∧
    (∀ g, g < h.length → BindsRel (h.scopeAt g).bindings (h2.scopeAt g).bindings) ∧
    (HeapNodup h → HeapNodup h2) := by
  simp only [lowerFunctionBody] at hok
  cases hbp : bindParams (h ++ [⟨some 0, []⟩]) h.length 0 params with
  | error e => simp [hbp] at hok
  | ok hB =>
      simp only [hbp] at hok
      obtain ⟨⟨⟨hlenB, hparB, hbindsB⟩, hndB⟩, hparAllB, hlenEqB⟩ :=
        bindParams_extends params (h ++ [⟨some 0, []⟩]) h.length 0 hB hbp
      have hmL := (lowering_masterOk (3 * sizeOf body)).2.2 body hB h.length
        ibody h2 (le_refl _) hok
      obtain ⟨⟨hlenL, hparL, hbindsL⟩, hndL⟩ := hmL
      have hlen1 : (h ++ [(⟨some 0, []⟩ : Scope)]).length = h.length + 1 := by simp
      refine ⟨?_, ?_, ?_, ?_⟩
      · omega
      · intro g hg
        have hgB : g < hB.length := by omega
        rw [hparL g hgB, hparAllB g, scopeAt_append h _ g hg]
      · intro g hg
        have hgne : g ≠ h.length := by omega
        have hg1 : g < (h ++ [(⟨some 0, []⟩ : Scope)]).length := by omega
        have hgB : g < hB.length := by omega
        have hb1 := hbindsB g hg1 hgne
        rw [scopeAt_append h _ g hg] at hb1
        exact bindsRel_trans hb1 (hbindsL g hgB hgne)
      · intro hn
        exact hndL (hndB (heapNodup_append h _ hn (by simp)))

theorem processUninterpreted_spec :
    ∀ (binds : List (String × ItpValue)) (h : Heap) (newFns : List (String × ItpValue))
      (h1 : Heap),
      processUninterpreted h binds = .ok (newFns, h1) →
      (h.length ≤ h1.length ∧
       (∀ g, g < h.length → (h1.scopeAt g).parent = (h.scopeAt g).parent) ∧
       (∀ g, g < h.length → BindsRel (h.scopeAt g).bindings (h1.scopeAt g).bindings) ∧
       (HeapNodup h → HeapNodup h1)) ∧
      List.Sublist (newFns.map Prod.fst) (binds.map Prod.fst) ∧
      (∀ e ∈ newFns, ¬ e.2.isUnItped) ∧
      (∀ k fnName generics parameters variadic body returnType,
        (k, ItpValue.unItpedFunction fnName generics parameters variadic body returnType)
          ∈ binds →
        ∃ hpre ibody hpost,
          lowerFunctionBody hpre parameters body = .ok (ibody, hpost) ∧
          (k, ItpValue.function fnName generics parameters variadic ibody returnType)
            ∈ newFns) := by
  intro binds
  induction binds with
  | nil =>
      intro h newFns h1 hok
      simp only [processUninterpreted] at hok
      simp only [Res.ok.injEq, Prod.mk.injEq] at hok
      obtain ⟨rfl, rfl⟩ := hok
      exact ⟨⟨le_refl _, fun _ _ => rfl, fun _ _ => bindsRel_refl _, id⟩,
        by simp, by simp, by simp⟩
  | cons e rest ih =>
      intro h newFns h1 hok
      obtain ⟨bname, v⟩ := e
      cases v with
      | unItpedFunction fnName generics parameters variadic body returnType =>
          simp only [processUninterpreted] at hok
          cases hlow : lowerFunctionBody h parameters body with
          | err m => simp [hlow] at hok
          | panic m => simp [hlow] at hok
          | ok pair =>
              obtain ⟨ibody, hB⟩ := pair
              simp only [hlow] at hok
              cases hrest : processUninterpreted hB rest with
              | err m => simp [hrest] at hok
              | panic m => simp [hrest] at hok
              | ok pair2 =>
                  obtain ⟨ns, h2⟩ := pair2
                  simp only [hrest, Res.ok.injEq, Prod.mk.injEq] at hok
                  obtain ⟨rfl, rfl⟩ := hok
                  obtain ⟨hlen1, hpar1, hbinds1, hnd1⟩ :=
                    lowerFunctionBody_mono h parameters body ibody hB hlow
                  obtain ⟨⟨hlen2, hpar2, hbinds2, hnd2⟩, hsub, hnotun, hcover⟩ :=
                    ih hB ns h2 hrest
                  refine ⟨⟨?_, ?_, ?_, ?_⟩, ?_, ?_, ?_⟩
                  · omega
                  · intro g hg
                    rw [hpar2 g (by omega), hpar1 g hg]
                  · intro g hg
                    exact bindsRel_trans (hbinds1 g hg) (hbinds2 g (by omega))
                  · intro hn; exact hnd2 (hnd1 hn)
                  · simpa using List.Sublist.cons₂ bname hsub
                  · intro e2 he2
                    rcases List.mem_cons.mp he2 with rfl | hmem
                    · simp [ItpValue.isUnItped]
                    · exact hnotun e2 hmem
                  · intro k fn g p vd b r hb
                    rcases List.mem_cons.mp hb with heq | hmem
                    · obtain ⟨hk, hval⟩ := Prod.mk.injEq .. ▸ heq
                      obtain ⟨rfl, rfl, rfl, rfl, rfl, rfl⟩ :=
                        ItpValue.unItpedFunction.injEq .. ▸ hval
                      subst hk
                      exact ⟨h, ibody, hB, hlow, by simp⟩
                    · obtain ⟨hp, hi, hpost, hl, hm⟩ := hcover k fn g p vd b r hmem
                      exact ⟨hp, hi, hpost, hl, List.mem_cons_of_mem _ hm⟩
      | param i t =>
          simp only [processUninterpreted] at hok
          obtain ⟨hm, hsub, hnotun, hcover⟩ := ih h newFns h1 hok
          refine ⟨hm, hsub.trans (List.sublist_cons_self _ _), hnotun, ?_⟩
          intro k fn g p vd b r hb
          rcases List.mem_cons.mp hb with heq | hmem
          · exact absurd (congrArg Prod.snd heq) (by simp)
          · exact hcover k fn g p vd b r hmem
      | constant c =>
          simp only [processUninterpreted] at hok
          obtain ⟨hm, hsub, hnotun, hcover⟩ := ih h newFns h1 hok
          refine ⟨hm, hsub.trans (List.sublist_cons_self _ _), hnotun, ?_⟩
          intro k fn g p vd b r hb
          rcases List.mem_cons.mp hb with heq | hmem
          · exact absurd (congrArg Prod.snd heq) (by simp)
          · exact hcover k fn g p vd b r hmem
      | named id t =>
          simp only [processUninterpreted] at hok
          obtain ⟨hm, hsub, hnotun, hcover⟩ := ih h newFns h1 hok
          refine ⟨hm, hsub.trans (List.sublist_cons_self _ _), hnotun, ?_⟩
          intro k fn g p vd b r hb
          rcases List.mem_cons.mp hb with heq | hmem
          · exact absurd (congrArg Prod.snd heq) (by simp)
          · exact hcover k fn g p vd b r hmem
      | function fn fg fp fv fb fr =>
          simp only [processUninterpreted] at hok
          obtain ⟨hm, hsub, hnotun, hcover⟩ := ih h newFns h1 hok
          refine ⟨hm, hsub.trans (List.sublist_cons_self _ _), hnotun, ?_⟩
          intro k fn2 g p vd b r hb
          rcases List.mem_cons.mp hb with heq | hmem
          · exact absurd (congrArg Prod.snd heq) (by simp)
          · exact hcover k fn2 g p vd b r hmem
      | nativeFunction fn fg fp fv fr fi =>
          simp only [processUninterpreted] at hok
          obtain ⟨hm, hsub, hnotun, hcover⟩ := ih h newFns h1 hok
          refine ⟨hm, hsub.trans (List.sublist_cons_self _ _), hnotun, ?_⟩
          intro k fn2 g p vd b r hb
          rcases List.mem_cons.mp hb with heq | hmem
          · exact absurd (congrArg Prod.snd heq) (by simp)
          · exact hcover k fn2 g p vd b r hmem

theorem scopeReplace_unfold (h : Heap) (s : Nat) (name : String) (v : ItpValue) :
    h.scopeReplace s name v =
      (match (h.scopeAt s).bindings.lookup name with
       | some old =>
           match old.get_type, v.get_type with
           | some ty, some ty' =>
               if ty ≠ ty' then .err .alreadyDefinedDifferentType
               else .ok (h.setScope s
                 ⟨(h.scopeAt s).parent, insertAssoc (h.scopeAt s).bindings name v⟩)
           | _, _ => .panic
       | none =>
           match (h.scopeAt s).parent with
           | some p => if _ : p < s then h.scopeReplace p name v else .err .notDefined
           | none => .err .notDefined) := by
  rw [Heap.scopeReplace.eq_def]

theorem scopeReplace_zero (h : Heap) (name : String) (v : ItpValue) (h' : Heap)
    (hpar : (h.scopeAt 0).parent = none)
    (hok : h.scopeReplace 0 name v = .ok h') :
    ∃ old ty, (h.scopeAt 0).bindings.lookup name = some old ∧
      old.get_type = some ty ∧ v.get_type = some ty ∧
      h' = h.setScope 0
        ⟨(h.scopeAt 0).parent, insertAssoc (h.scopeAt 0).bindings name v⟩ := by
  rw [scopeReplace_unfold] at hok
  cases hlook : (h.scopeAt 0).bindings.lookup name with
  | none =>
      simp only [hlook, hpar] at hok
      exact absurd hok (by simp)
  | some old =>
      simp only [hlook] at hok
      cases hty : old.get_type with
      | none =>
          simp only [hty] at hok
          exact absurd hok (by simp)
      | some ty =>
          cases hty' : v.get_type with
          | none =>
              simp only [hty, hty'] at hok
              exact absurd hok (by simp)
          | some ty' =>
              simp only [hty, hty'] at hok
              by_cases he : ty = ty'
              · rw [if_neg (by simp [he])] at hok
                exact ⟨old, ty, rfl, hty, congrArg some he.symm,
                  (ScopeRes.ok.inj hok).symm⟩
              · rw [if_pos he] at hok
                exact absurd hok (by simp)

theorem replaceAll_spec :
    ∀ (newFns : List (String × ItpValue)) (h : Heap) (hF : Heap),
      (newFns.map Prod.fst).Nodup →
      (h.scopeAt 0).parent = none →
      replaceAll h newFns = .ok hF →
      (∀ k fv, newFns.lookup k = some fv →
        (hF.scopeAt 0).bindings.lookup k = some fv) ∧
      (∀ k, newFns.lookup k = none →
        (hF.scopeAt 0).bindings.lookup k = (h.scopeAt 0).bindings.lookup k) := by
  intro newFns
  induction newFns with
  | nil =>
      intro h hF _ _ hok
      simp only [replaceAll] at hok
      obtain rfl : h = hF := Res.ok.inj hok
      exact ⟨fun k fv hl => by simp [List.lookup] at hl, fun k _ => rfl⟩
  | cons e rest ih =>
      intro h hF hnd hpar hok
      obtain ⟨kn, fv⟩ := e
      simp only [replaceAll] at hok
      cases hrep : h.scopeReplace 0 kn fv with
      | err e2 => simp [hrep] at hok
      | panic => simp [hrep] at hok
      | ok hB =>
          simp only [hrep] at hok
          obtain ⟨old, ty, hlook, -, -, rfl⟩ := scopeReplace_zero h kn fv hB hpar hrep
          have h0lt : 0 < h.length := lookup_some_lt h 0 kn old hlook
          have hB0 : (h.setScope 0
              ⟨(h.scopeAt 0).parent, insertAssoc (h.scopeAt 0).bindings kn fv⟩).scopeAt 0 =
              ⟨(h.scopeAt 0).parent, insertAssoc (h.scopeAt 0).bindings kn fv⟩ :=
            scopeAt_setScope_self h 0 _ h0lt
          simp only [List.map_cons, List.nodup_cons] at hnd
          obtain ⟨hkn, hndr⟩ := hnd
          obtain ⟨ih1, ih2⟩ := ih _ hF hndr (by rw [hB0]; exact hpar) hok
          constructor
          · intro k fv2 hl
            by_cases hk : (k == kn) = true
            · simp only [List.lookup, hk, Option.some.injEq] at hl
              have hkeq : k = kn := by simpa using hk
              subst hkeq
              subst hl
              have hrestnone : rest.lookup k = none :=
                lookup_none_of_not_mem_keys rest k hkn
              rw [ih2 k hrestnone, hB0]
              exact insertAssoc_lookup_self _ k fv
            · have hk' : (k == kn) = false := by simpa using hk
              simp only [List.lookup, hk'] at hl
              exact ih1 k fv2 hl
          · intro k hl
            cases hkk : (k == kn) with
            | true => simp [List.lookup, hkk] at hl
            | false =>
                simp only [List.lookup, hkk] at hl
                rw [ih2 k hl, hB0]
                exact insertAssoc_lookup_other _ kn k fv (by simpa using hkk)

theorem interpretTopLevel_masterOk :
    ∀ (prog : List ParsedAst) (h h' : Heap),
      interpretTopLevel h prog = .ok h' → MasterOk h h' 0 := by
  intro prog
  induction prog with
  | nil =>
      intro h h' hok
      simp only [interpretTopLevel] at hok
      obtain rfl := Res.ok.inj hok
      exact masterOk_refl h 0
  | cons a rest ih =>
      intro h h' hok
      simp only [interpretTopLevel] at hok
      cases hA : interpretAst a h 0 with
      | err m => simp [hA] at hok
      | panic m => simp [hA] at hok
      | ok pair =>
          obtain ⟨ns, h1⟩ := pair
          simp only [hA] at hok
          have hm1 := (lowering_masterOk (3 * sizeOf a + 2)).1 a h 0 ns h1
            (le_refl _) hA
          exact masterOk_trans hm1 (ih h1 h' hok)

/-! ## Claims -/

/-- C4: computing the type of a constant array is well-defined exactly
when the array is non-empty and every element shares one type `t`, and
then yields `Array(t)`; in particular `[1.0, 2.0, 3.0]` has type
`Array(Float)` while the heterogeneous `[1.0, "x"]` is rejected (the
source panics rather than representing it). -/
theorem constant_array_type_wellDefined :
    (∀ (vs : List ItpValue) (t : ItpTypeValue),
      ItpConstantValue.get_type (.array vs) = some (.array t) ↔
        vs ≠ [] ∧ ∀ v ∈ vs, ItpValue.get_type v = some t) ∧
    ItpConstantValue.get_type
        (.array [.constant (.float 1), .constant (.float 2), .constant (.float 3)]) =
      some (.array .float) ∧
    ItpConstantValue.get_type
        (.array [.constant (.float 1), .constant (.string "x")]) = none := by
  refine ⟨?_, rfl, rfl⟩
  intro vs t
  cases he : elementTypes vs with
  | none =>
      rw [get_type_array_none vs he]
      constructor
      · intro h; exact absurd h (by simp)
      · rintro ⟨-, hall⟩
        obtain ⟨v, hv, hvt⟩ := elementTypes_none vs he
        rw [hall v hv] at hvt
        exact absurd hvt (by simp)
  | some ts =>
      obtain ⟨hnil, hall⟩ := elementTypes_some vs ts he
      rw [get_type_array_some vs ts he]
      cases hd : dedupTypes ts with
      | nil =>
          constructor
          · intro h; exact absurd h (by simp)
          · rintro ⟨hvs, -⟩
            exact absurd (hnil.mp ((dedupTypes_eq_nil ts).mp hd)) hvs
      | cons u rest =>
          cases rest with
          | nil =>
              constructor
              · intro h
                have hut : u = t := by simpa using h
                subst hut
                obtain ⟨hne, hx⟩ := (dedupTypes_singleton ts u).mp hd
                exact ⟨fun hvs => hne (hnil.mpr hvs), (hall u).mp hx⟩
              · rintro ⟨hvs, hv⟩
                have hx : ∀ x ∈ ts, x = t := (hall t).mpr hv
                have hne : ts ≠ [] := fun hn => hvs (hnil.mp hn)
                have hsing : dedupTypes ts = [t] :=
                  (dedupTypes_singleton ts t).mpr ⟨hne, hx⟩
                rw [hd] at hsing
                have hut : u = t := by simpa using hsing
                subst hut
                simp
          | cons w rest2 =>
              constructor
              · intro h; exact absurd h (by simp)
              · rintro ⟨hvs, hv⟩
                have hx : ∀ x ∈ ts, x = t := (hall t).mpr hv
                have hne : ts ≠ [] := fun hn => hvs (hnil.mp hn)
                have hsing : dedupTypes ts = [t] :=
                  (dedupTypes_singleton ts t).mpr ⟨hne, hx⟩
                rw [hd] at hsing
                simp at hsing

/-- The loop of `check_params` ignores actual arguments beyond the
declared parameter list: appending extra actuals changes nothing once
the actual list already covers every declared parameter. -/
theorem checkParamsLoop_append :
    ∀ (ps : List (String × ItpTypeValue)) (gens : List (String × ItpTypeValue))
      (i : Nat) (args extra : List ItpTypeValue),
      ps.length ≤ args.length →
      checkParamsLoop gens i ps (args ++ extra) = checkParamsLoop gens i ps args := by
  intro ps
  induction ps with
  | nil => intro gens i args extra _; simp [checkParamsLoop]
  | cons p ps ih =>
      intro gens i args extra hlen
      cases args with
      | nil => simp at hlen
      | cons a args =>
          obtain ⟨pn, pt⟩ := p
          simp only [List.cons_append, checkParamsLoop]
          cases check_param gens i pt a with
          | error r => rfl
          | ok gens' => exact ih gens' (i + 1) args extra (by simpa using hlen)

/-- C8: arity checking of a call.  Fewer lowered arguments than
declared parameters yields `NotEnoughParameters`; more arguments than
declared parameters with a non-variadic signature yields
`TooManyParameters`; and for a variadic signature every argument
beyond the declared fixed arity is accepted with no type check at all
(appending arbitrary extra argument types never changes the result). -/
theorem check_params_arity (sig : ItpFunctionParameters) (args : List ItpTypeValue) :
    (args.length < sig.parameters.length →
      sig.check_params args = .notEnoughParameters) ∧
    (sig.variadic = false → args.length > sig.parameters.length →
      sig.check_params args = .tooManyParameters) ∧
    (sig.variadic = true → sig.parameters.length ≤ args.length →
      ∀ extra, sig.check_params (args ++ extra) = sig.check_params args) := by
  refine ⟨?_, ?_, ?_⟩
  · intro h
    simp [ItpFunctionParameters.check_params, h]
  · intro hv h
    have h1 : ¬ args.length < sig.parameters.length := by omega
    simp [ItpFunctionParameters.check_params, h1, hv, h]
  · intro hv hlen extra
    have h1 : ¬ (args ++ extra).length < sig.parameters.length := by
      simp; omega
    have h2 : ¬ args.length < sig.parameters.length := by omega
    simp only [ItpFunctionParameters.check_params, h1, h2, if_neg, not_false_iff, hv,
      Bool.not_true, Bool.false_and, Bool.false_eq_true, if_false]
    exact checkParamsLoop_append sig.parameters [] 0 args extra hlen

/-- The chain of scope indices visited by the ancestor-walking scope
operations, innermost first (with the same acyclicity guard as the
operations themselves). -/
def chainScopes (h : Heap) : Nat → List Nat
  | s =>
      s :: (match (h.scopeAt s).parent with
        | some p => if _ : p < s then chainScopes h p else []
        | none => [])

/-- The first (innermost) scope of the chain whose local bindings hold
`name`. -/
def firstDefining (h : Heap) (s : Nat) (name : String) : Option Nat :=
  (chainScopes h s).find? (fun g => ((h.scopeAt g).bindings.lookup name).isSome)

theorem scopeReplace_local_some (h : Heap) (s : Nat) (name : String) (v : ItpValue)
    (old : ItpValue) (hlook : (h.scopeAt s).bindings.lookup name = some old) :
    h.scopeReplace s name v =
      match old.get_type, v.get_type with
      | some ty, some ty' =>
          if ty ≠ ty' then .err .alreadyDefinedDifferentType
          else .ok (h.setScope s ⟨(h.scopeAt s).parent, insertAssoc (h.scopeAt s).bindings name v⟩)
      | _, _ => .panic := by
  rw [Heap.scopeReplace.eq_def]
  simp only [hlook]

theorem scopeReplace_parent (h : Heap) (s : Nat) (name : String) (v : ItpValue)
    (p : Nat) (hlook : (h.scopeAt s).bindings.lookup name = none)
    (hp : (h.scopeAt s).parent = some p) (hps : p < s) :
    h.scopeReplace s name v = h.scopeReplace p name v := by
  rw [Heap.scopeReplace.eq_def]
  simp only [hlook, hp, hps, dif_pos]

theorem scopeReplace_badParent (h : Heap) (s : Nat) (name : String) (v : ItpValue)
    (p : Nat) (hlook : (h.scopeAt s).bindings.lookup name = none)
    (hp : (h.scopeAt s).parent = some p) (hps : ¬ p < s) :
    h.scopeReplace s name v = .err .notDefined := by
  rw [Heap.scopeReplace.eq_def]
  simp only [hlook, hp, hps, dif_neg, not_false_iff]

theorem scopeReplace_root (h : Heap) (s : Nat) (name : String) (v : ItpValue)
    (hlook : (h.scopeAt s).bindings.lookup name = none)
    (hp : (h.scopeAt s).parent = none) :
    h.scopeReplace s name v = .err .notDefined := by
  rw [Heap.scopeReplace.eq_def]
  simp only [hlook, hp]

theorem firstDefining_local_some (h : Heap) (s : Nat) (name : String)
    (hlook : ((h.scopeAt s).bindings.lookup name).isSome = true) :
    firstDefining h s name = some s := by
  rw [firstDefining, chainScopes]
  simp [List.find?, hlook]

theorem firstDefining_parent (h : Heap) (s : Nat) (name : String) (p : Nat)
    (hlook : (h.scopeAt s).bindings.lookup name = none)
    (hp : (h.scopeAt s).parent = some p) (hps : p < s) :
    firstDefining h s name = firstDefining h p name := by
  rw [firstDefining, firstDefining, chainScopes]
  simp [List.find?, hlook, hp, hps]

theorem firstDefining_badParent (h : Heap) (s : Nat) (name : String) (p : Nat)
    (hlook : (h.scopeAt s).bindings.lookup name = none)
    (hp : (h.scopeAt s).parent = some p) (hps : ¬ p < s) :
    firstDefining h s name = none := by
  rw [firstDefining, chainScopes]
  simp [List.find?, hlook, hp, hps]

theorem firstDefining_root (h : Heap) (s : Nat) (name : String)
    (hlook : (h.scopeAt s).bindings.lookup name = none)
    (hp : (h.scopeAt s).parent = none) :
    firstDefining h s name = none := by
  rw [firstDefining, chainScopes]
  simp [List.find?, hlook, hp]

/-- C7: `Scope::replace` searches the local scope then the ancestors
and acts on the first (innermost) scope of the chain where the name
already exists: it overwrites the binding there when the new binding's
type equals the old one's, rejects a type-changing replace, and fails
with `NotDefined` exactly when no scope in the chain defines the
name. -/
theorem scope_replace_spec (h : Heap) (s : Nat) (name : String) (v : ItpValue) :
    (firstDefining h s name = none ↔ h.scopeReplace s name v = .err .notDefined) ∧
    (∀ g old ty ty',
      firstDefining h s name = some g →
      (h.scopeAt g).bindings.lookup name = some old →
      old.get_type = some ty → v.get_type = some ty' →
      (ty = ty' → h.scopeReplace s name v =
          .ok (h.setScope g ⟨(h.scopeAt g).parent, insertAssoc (h.scopeAt g).bindings name v⟩)) ∧
      (ty ≠ ty' → h.scopeReplace s name v = .err .alreadyDefinedDifferentType)) := by
  induction s using Nat.strong_induction_on with
  | _ s ih =>
      cases hlook : (h.scopeAt s).bindings.lookup name with
      | some old =>
          have hfd : firstDefining h s name = some s :=
            firstDefining_local_some h s name (by rw [hlook]; rfl)
          have hrep := scopeReplace_local_some h s name v old hlook
          constructor
          · rw [hfd]
            constructor
            · intro hc; exact absurd hc (by simp)
            · intro hc
              rw [hrep] at hc
              cases hty : old.get_type with
              | none => rw [hty] at hc; simp at hc
              | some ty =>
                  cases hty' : v.get_type with
                  | none => rw [hty, hty'] at hc; simp at hc
                  | some ty' =>
                      rw [hty, hty'] at hc
                      by_cases he : ty = ty'
                      · simp [he] at hc
                      · simp [he] at hc
          · intro g old' ty ty' hg hlook' hty hty'
            rw [hfd] at hg
            have hgs : g = s := (Option.some.inj hg).symm
            subst hgs
            rw [hlook] at hlook'
            have : old = old' := Option.some.inj hlook'
            subst this
            rw [hrep, hty, hty']
            constructor
            · intro he; simp [he]
            · intro he; simp [he]
      | none =>
          cases hp : (h.scopeAt s).parent with
          | some p =>
              by_cases hps : p < s
              · have hfd := firstDefining_parent h s name p hlook hp hps
                have hrep := scopeReplace_parent h s name v p hlook hp hps
                obtain ⟨ih1, ih2⟩ := ih p hps
                constructor
                · rw [hfd, hrep]; exact ih1
                · intro g old ty ty' hg hlook' hty hty'
                  rw [hfd] at hg
                  rw [hrep]
                  exact ih2 g old ty ty' hg hlook' hty hty'
              · have hfd := firstDefining_badParent h s name p hlook hp hps
                have hrep := scopeReplace_badParent h s name v p hlook hp hps
                constructor
                · rw [hfd, hrep]; simp
                · intro g old ty ty' hg
                  rw [hfd] at hg
                  exact absurd hg (by simp)
          | none =>
              have hfd := firstDefining_root h s name hlook hp
              have hrep := scopeReplace_root h s name v hlook hp
              constructor
              · rw [hfd, hrep]; simp
              · intro g old ty ty' hg
                rw [hfd] at hg
                exact absurd hg (by simp)

/-- A two-scope chain for the C7 witness: the name `y : Float` bound in
the root scope, an empty child scope. -/
def replHeap : Heap :=
  [⟨none, [("y", .named ⟨"y", .varId⟩ .float)]⟩, ⟨some 0, []⟩]

/-- Witness for C7 at `replHeap`: a same-typed replace from the child
overwrites the root binding; an unknown name fails with `NotDefined`;
a type-changing replace is rejected. -/
theorem scope_replace_spec_witness :
    replHeap.scopeReplace 1 "y" (.named ⟨"y", .varId⟩ .float) =
      .ok (replHeap.setScope 0 ⟨(replHeap.scopeAt 0).parent,
        insertAssoc (replHeap.scopeAt 0).bindings "y" (.named ⟨"y", .varId⟩ .float)⟩) ∧
    replHeap.scopeReplace 1 "z" (.named ⟨"y", .varId⟩ .float) = .err .notDefined ∧
    replHeap.scopeReplace 1 "y" (.named ⟨"y", .varId⟩ .int) =
      .err .alreadyDefinedDifferentType := by
  refine ⟨?_, ?_, ?_⟩
  · exact ((scope_replace_spec replHeap 1 "y" (.named ⟨"y", .varId⟩ .float)).2 0
      (.named ⟨"y", .varId⟩ .float) .float .float
      (by simp [firstDefining, chainScopes, Heap.scopeAt, replHeap, List.lookup,
        List.find?])
      (by simp [Heap.scopeAt, replHeap, List.lookup]) rfl rfl).1 rfl
  · exact (scope_replace_spec replHeap 1 "z" (.named ⟨"y", .varId⟩ .float)).1.mp
      (by simp [firstDefining, chainScopes, Heap.scopeAt, replHeap, List.lookup,
        List.find?])
  · exact ((scope_replace_spec replHeap 1 "y" (.named ⟨"y", .varId⟩ .int)).2 0
      (.named ⟨"y", .varId⟩ .float) .float .int
      (by simp [firstDefining, chainScopes, Heap.scopeAt, replHeap, List.lookup,
        List.find?])
      (by simp [Heap.scopeAt, replHeap, List.lookup]) rfl rfl).2 (by decide)

/-- The two-generic signature of the C3 scenario:
`[Generic("T"), Generic("T")]`. -/
def tTSig : ItpFunctionParameters :=
  ⟨["T"], [("a", .generic "T"), ("b", .generic "T")], false⟩

/-- C3 counterexample: checking `[Generic("T"), Generic("T")]` against
`(Int, Float)` produces `WrongType(1, Generic("T"), Float)` — the
declared type (the unsubstituted generic) in the second slot and the
actual type in the third — not `WrongType(1, Float, Int)` as the claim
(index, actual, bound expected type) would require. -/
theorem wrongType_order_counterexample :
    tTSig.check_params [.int, .float] = .wrongType 1 (.generic "T") .float ∧
    IFPCheck.wrongType 1 (.generic "T") .float ≠ .wrongType 1 .float .int := by
  exact ⟨by decide, by decide⟩

/-- `nArray n t` wraps `t` in `n` layers of `Array`; it relates the
payload of a `WrongType` error to the declared and actual types it was
built from, since the `Array` arm of `check_param` recurses into
element types. -/
def nArray : Nat → ItpTypeValue → ItpTypeValue
  | 0, t => t
  | n + 1, t => .array (nArray n t)

/-- Every error produced by `check_param` — in every arm: the
bound-generic conflict, the array-shape mismatch, and the concrete-type
mismatch — is `WrongType(i, p, v)` where `p` and `v` are obtained from
the declared type and the actual type by stripping the same number of
`Array` layers: the declared side in the second slot, the actual side
in the third. -/
theorem check_param_error_spec :
    ∀ (param : ItpTypeValue) (gens : List (String × ItpTypeValue)) (i : Nat)
      (value : ItpTypeValue) (e : IFPCheck),
      check_param gens i param value = .error e →
      ∃ n p v, param = nArray n p ∧ value = nArray n v ∧ e = .wrongType i p v
  | .generic name, gens, i, value, e => by
      intro h
      simp only [check_param] at h
      cases hl : gens.lookup name with
      | none => simp only [hl] at h; exact Except.noConfusion h
      | some g =>
          simp only [hl] at h
          split at h
          · exact Except.noConfusion h
          · exact ⟨0, .generic name, value, rfl, rfl, by injection h with h; exact h.symm⟩
  | .array t, gens, i, value, e => by
      intro h
      cases value <;> simp only [check_param, Except.error.injEq] at h
      case array v' =>
          obtain ⟨n, p, v0, hp, hv, he⟩ := check_param_error_spec t gens i v' e h
          exact ⟨n + 1, p, v0, by rw [hp]; rfl, by rw [hv]; rfl, he⟩
      all_goals exact ⟨0, _, _, rfl, rfl, h.symm⟩
  | .int, gens, i, value, e => by
      intro h
      simp only [check_param] at h
      split at h
      · exact Except.noConfusion h
      · exact ⟨0, _, _, rfl, rfl, by injection h with h; exact h.symm⟩
  | .float, gens, i, value, e => by
      intro h
      simp only [check_param] at h
      split at h
      · exact Except.noConfusion h
      · exact ⟨0, _, _, rfl, rfl, by injection h with h; exact h.symm⟩
  | .string, gens, i, value, e => by
      intro h
      simp only [check_param] at h
      split at h
      · exact Except.noConfusion h
      · exact ⟨0, _, _, rfl, rfl, by injection h with h; exact h.symm⟩
  | .char, gens, i, value, e => by
      intro h
      simp only [check_param] at h
      split at h
      · exact Except.noConfusion h
      · exact ⟨0, _, _, rfl, rfl, by injection h with h; exact h.symm⟩
  | .bool, gens, i, value, e => by
      intro h
      simp only [check_param] at h
      split at h
      · exact Except.noConfusion h
      · exact ⟨0, _, _, rfl, rfl, by injection h with h; exact h.symm⟩
  | .void, gens, i, value, e => by
      intro h
      simp only [check_param] at h
      split at h
      · exact Except.noConfusion h
      · exact ⟨0, _, _, rfl, rfl, by injection h with h; exact h.symm⟩
  | .function fg fp fv fr, gens, i, value, e => by
      intro h
      simp only [check_param] at h
      split at h
      · exact Except.noConfusion h
      · exact ⟨0, _, _, rfl, rfl, by injection h with h; exact h.symm⟩

/-- Lifting `check_param_error_spec` through the `check_params` loop:
a `WrongType(i, a, b)` escaping the loop started at counter `j` points
at position `i - j` of both the declared and the actual list. -/
theorem checkParamsLoop_wrongType :
    ∀ (decls : List (String × ItpTypeValue)) (args : List ItpTypeValue)
      (gens : List (String × ItpTypeValue)) (j i : Nat) (a b : ItpTypeValue),
      checkParamsLoop gens j decls args = .wrongType i a b →
      ∃ k n pname, i = j + k ∧ decls[k]? = some (pname, nArray n a) ∧
        args[k]? = some (nArray n b)
  | [], args, gens, j, i, a, b => by
      intro h
      simp only [checkParamsLoop] at h
      exact IFPCheck.noConfusion h
  | (pname, t) :: rest, [], gens, j, i, a, b => by
      intro h
      simp only [checkParamsLoop] at h
      exact IFPCheck.noConfusion h
  | (pname, t) :: rest, v :: vrest, gens, j, i, a, b => by
      intro h
      simp only [checkParamsLoop] at h
      cases hc : check_param gens j t v with
      | error r =>
          simp only [hc] at h
          subst h
          obtain ⟨n, p, v0, hp, hv, he⟩ := check_param_error_spec t gens j v (.wrongType i a b) hc
          obtain ⟨rfl, rfl, rfl⟩ : i = j ∧ a = p ∧ b = v0 := by
            injection he.symm with h1 h2 h3
            exact ⟨h1.symm, h2.symm, h3.symm⟩
          exact ⟨0, n, pname, by omega, by simp [hp], by simp [hv]⟩
      | ok gens' =>
          simp only [hc] at h
          obtain ⟨k, n, pn, hk, hd, ha⟩ :=
            checkParamsLoop_wrongType rest vrest gens' (j + 1) i a b h
          exact ⟨k + 1, n, pn, by omega, by simpa using hd, by simpa using ha⟩

/-- C3 amended: whenever `check_params` fails on a positional type
mismatch, the `WrongType` payload is `(index, declared parameter type,
actual argument type)` in that order, in every arm of `check_param`:
the second slot is the declared parameter type at that index and the
third the actual argument type, both stripped of the same number of
`Array` layers (the array arm recurses into element types).  In
particular, on a generic-binding conflict the declared slot holds the
generic type itself (`Generic(name)`), not the generic's currently
bound concrete type. -/
theorem wrongType_order (sig : ItpFunctionParameters) (args : List ItpTypeValue)
    (i : Nat) (a b : ItpTypeValue)
    (h : sig.check_params args = .wrongType i a b) :
    ∃ n pname, sig.parameters[i]? = some (pname, nArray n a) ∧
      args[i]? = some (nArray n b) := by
  simp only [ItpFunctionParameters.check_params] at h
  split at h
  · exact IFPCheck.noConfusion h
  · split at h
    · exact IFPCheck.noConfusion h
    · obtain ⟨k, n, pname, hk, hd, ha⟩ :=
        checkParamsLoop_wrongType sig.parameters args [] 0 i a b h
      simp only [Nat.zero_add] at hk
      subst hk
      exact ⟨n, pname, hd, ha⟩

/-- A non-variadic signature declaring one `Float` parameter. -/
def fSig : ItpFunctionParameters := ⟨[], [("x", .float)], false⟩

/-- A non-variadic signature declaring one `Array(Float)` parameter. -/
def aSig : ItpFunctionParameters := ⟨[], [("xs", .array .float)], false⟩

/-- Witness for the C3 amended theorem at three concrete mismatches:
the generic-binding conflict of the claim's own scenario (declared
`Generic("T")` at index 1, actual `Float`), a concrete-type mismatch
(declared `Float`, actual `Int`), and an array element-type mismatch
(declared `Array(Float)`, actual `Array(Int)`, payload stripped one
layer). -/
theorem wrongType_order_witness :
    (∃ n pname, tTSig.parameters[1]? = some (pname, nArray n (.generic "T")) ∧
        [ItpTypeValue.int, ItpTypeValue.float][1]? = some (nArray n .float)) ∧
    (∃ n pname, fSig.parameters[0]? = some (pname, nArray n .float) ∧
        [ItpTypeValue.int][0]? = some (nArray n .int)) ∧
    (∃ n pname, aSig.parameters[0]? = some (pname, nArray n .float) ∧
        [ItpTypeValue.array .int][0]? = some (nArray n .int)) :=
  ⟨wrongType_order tTSig [.int, .float] 1 (.generic "T") .float (by decide),
   wrongType_order fSig [.int] 0 .float .int (by decide),
   wrongType_order aSig [.array .int] 0 .float .int (by decide)⟩

theorem identifierParams_float :
    ∀ (argList : List ParsedAst) (params : List (String × ItpTypeValue)),
      identifierParams argList = .ok params → ∀ pr ∈ params, pr.2 = .float := by
  intro argList
  induction argList with
  | nil =>
      intro params h
      simp only [identifierParams] at h
      cases h
      simp
  | cons a rest ih =>
      intro params h
      simp only [identifierParams] at h
      cases ha : a.as_identifier with
      | error m => rw [ha] at h; simp at h
      | ok id =>
          rw [ha] at h
          cases hr : identifierParams rest with
          | error m => rw [hr] at h; simp at h
          | ok ps =>
              rw [hr] at h
              cases h
              intro pr hpr
              rcases List.mem_cons.mp hpr with hh | hh
              · rw [hh]
              · exact ih ps hr pr hh

/-- C9: `fn_macro` given a name, a parameter-identifier array, and body
forms registers under that name in the current scope an
`UnItpedFunction` whose every parameter has type `Float`, whose return
type is `Float`, whose generics list is empty and variadic flag is
false, and whose body is the untyped body forms stored verbatim; the
expansion itself returns zero IR nodes.  (`Scope::set` is define-only,
so the name must not already be bound in the current scope.) -/
theorem fn_macro_registers (nameAst argsAst : ParsedAst) (body : List ParsedAst)
    (h : Heap) (s : Nat) (nameId : Identifier) (argList : List ParsedAst)
    (params : List (String × ItpTypeValue))
    (h1 : nameAst.as_identifier = .ok nameId)
    (h2 : argsAst.as_array = .ok argList)
    (h3 : identifierParams argList = .ok params)
    (h4 : (h.scopeAt s).bindings.lookup nameId.name = none) :
    (∀ pr ∈ params, pr.2 = .float) ∧
    fnMacro (nameAst :: argsAst :: body) h s =
      .ok ([], h.setScope s ⟨(h.scopeAt s).parent,
        insertAssoc (h.scopeAt s).bindings nameId.name
          (.unItpedFunction nameId.name [] params false body .float)⟩) := by
  refine ⟨identifierParams_float argList params h3, ?_⟩
  simp only [fnMacro, h1, h2, h3, Heap.scopeSet, h4, Option.isSome_none,
    Bool.false_eq_true, if_false]

/-- Witness for C9: `(@fn f [a] 1.0)` against the freshly initialised
interpreter registers the placeholder for `f` and expands to no IR. -/
theorem fn_macro_registers_witness :
    fnMacro [ParsedAst.mk (.identifier ⟨"f", .varId⟩) 0 0,
        .mk (.arrayL [.mk (.identifier ⟨"a", .varId⟩) 0 0]) 0 0,
        .mk (.floatL 1) 0 0] initialHeap 0 =
      .ok ([], initialHeap.setScope 0 ⟨(initialHeap.scopeAt 0).parent,
        insertAssoc (initialHeap.scopeAt 0).bindings "f"
          (.unItpedFunction "f" [] [("a", .float)] false
            [.mk (.floatL 1) 0 0] .float)⟩) :=
  (fn_macro_registers (.mk (.identifier ⟨"f", .varId⟩) 0 0)
    (.mk (.arrayL [.mk (.identifier ⟨"a", .varId⟩) 0 0]) 0 0)
    [.mk (.floatL 1) 0 0] initialHeap 0 ⟨"f", .varId⟩
    [.mk (.identifier ⟨"a", .varId⟩) 0 0] [("a", .float)]
    rfl rfl rfl (by simp [initialHeap, Heap.scopeAt, nativeFnsBindings, List.lookup])).2

/-- C5 counterexample: `fn_macro` invoked with zero arguments panics
(out-of-bounds indexing of `ast[0]`) instead of returning a structured
error value. -/
theorem fn_macro_zero_args_panics :
    fnMacro [] initialHeap 0 =
      .panic "index out of bounds: the len is 0 but the index is 0" ∧
    (match fnMacro [] initialHeap 0 with
      | .err _ => False
      | _ => True) := by
  have h : fnMacro [] initialHeap 0 =
      .panic "index out of bounds: the len is 0 but the index is 0" := by
    simp [fnMacro]
  exact ⟨h, by rw [h]; trivial⟩

/-- C5 amended: `set`, `if` and `while` given the wrong number of
arguments return structured error values, but `fn` performs no arity
check: with zero arguments it panics on `ast[0]`, and with one argument
it panics on `ast[1]` as soon as the single argument is an identifier
(a non-identifier single argument errors out of `as_identifier`
first). -/
theorem macro_arity_behaviour :
    (∀ (args : List ParsedAst) (h : Heap) (s : Nat), args.length ≠ 2 →
      setMacro args h s = .err "Expected 2 arguments") ∧
    (∀ (args : List ParsedAst) (h : Heap) (s : Nat), args.length ≠ 3 →
      ifMacro args h s = .err "Expected 3 arguments") ∧
    (∀ (args : List ParsedAst) (h : Heap) (s : Nat), args.length ≠ 2 →
      whileMacro args h s = .err "Expected 2 arguments") ∧
    (∀ (h : Heap) (s : Nat), fnMacro [] h s =
      .panic "index out of bounds: the len is 0 but the index is 0") ∧
    (∀ (h : Heap) (s : Nat) (a : ParsedAst) (id : Identifier),
      a.as_identifier = .ok id →
      fnMacro [a] h s = .panic "index out of bounds: the len is 1 but the index is 1") := by
  refine ⟨?_, ?_, ?_, ?_, ?_⟩
  · intro args h s hlen
    rcases args with _ | ⟨a, _ | ⟨b, _ | ⟨c, rest⟩⟩⟩
    · simp [setMacro]
    · simp [setMacro]
    · simp at hlen
    · simp [setMacro]
  · intro args h s hlen
    rcases args with _ | ⟨a, _ | ⟨b, _ | ⟨c, _ | ⟨d, rest⟩⟩⟩⟩
    · simp [ifMacro]
    · simp [ifMacro]
    · simp [ifMacro]
    · simp at hlen
    · simp [ifMacro]
  · intro args h s hlen
    rcases args with _ | ⟨a, _ | ⟨b, _ | ⟨c, rest⟩⟩⟩
    · simp [whileMacro]
    · simp [whileMacro]
    · simp at hlen
    · simp [whileMacro]
  · intro h s; simp [fnMacro]
  · intro h s a id ha; simp [fnMacro, ha]

/-- Witness for the C5 amended theorem: each arity-error case at a
concrete input. -/
theorem macro_arity_behaviour_witness :
    setMacro [] initialHeap 0 = .err "Expected 2 arguments" ∧
    ifMacro [] initialHeap 0 = .err "Expected 3 arguments" ∧
    whileMacro [] initialHeap 0 = .err "Expected 2 arguments" ∧
    fnMacro [] initialHeap 0 =
      .panic "index out of bounds: the len is 0 but the index is 0" ∧
    fnMacro [ParsedAst.mk (.identifier ⟨"g", .varId⟩) 0 0] initialHeap 0 =
      .panic "index out of bounds: the len is 1 but the index is 1" :=
  ⟨macro_arity_behaviour.1 [] initialHeap 0 (by decide),
   macro_arity_behaviour.2.1 [] initialHeap 0 (by decide),
   macro_arity_behaviour.2.2.1 [] initialHeap 0 (by decide),
   macro_arity_behaviour.2.2.2.1 initialHeap 0,
   macro_arity_behaviour.2.2.2.2 initialHeap 0
     (.mk (.identifier ⟨"g", .varId⟩) 0 0) ⟨"g", .varId⟩ rfl⟩

/-- C10: lowering an array literal produces the concatenation of the
lowerings of its elements — never an array-valued node: the empty
array lowers to zero nodes, a cons lowers to the element's nodes
followed by the rest's nodes, a two-element float array lowers to two
constant nodes, and `set` applied to such an array value fails the
singleton check with "Expected single value". -/
theorem array_literal_concatenates :
    (∀ (l c : Nat) (h : Heap) (s : Nat),
      interpretAst (.mk (.arrayL []) l c) h s = .ok ([], h)) ∧
    (∀ (l c : Nat) (v : ParsedAst) (vs : List ParsedAst) (h : Heap) (s : Nat),
      interpretAst (.mk (.arrayL (v :: vs)) l c) h s =
        match interpretAst v h s with
        | .err m => .err m
        | .panic m => .panic m
        | .ok (ns, h1) =>
            match interpretAst (.mk (.arrayL vs) l c) h1 s with
            | .err m => .err m
            | .panic m => .panic m
            | .ok (ms, h2) => .ok (ns ++ ms, h2)) ∧
    interpretAst (.mk (.arrayL [.mk (.floatL 1) 0 0, .mk (.floatL 2) 0 0]) 0 0)
        initialHeap 0 =
      .ok ([.mk (.constant (.float 1)) 0 0, .mk (.constant (.float 2)) 0 0],
        initialHeap) ∧
    setMacro [.mk (.identifier ⟨"x", .varId⟩) 0 0,
        .mk (.arrayL [.mk (.floatL 1) 0 0, .mk (.floatL 2) 0 0]) 0 0] initialHeap 0 =
      .err "Expected single value" := by
  refine ⟨?_, ?_, ?_, ?_⟩
  · intro l c h s
    simp [interpretAst, interpretList]
  · intro l c v vs h s
    simp only [interpretAst, interpretList]
  · simp [interpretAst, interpretList]
  · simp [setMacro, interpretAst, interpretList, ParsedAst.as_identifier, ParsedAst.kind]

/-- The identifier `x` (plain variable sigil) of the C6 scenario. -/
def xVarId : Identifier := ⟨"x", .varId⟩

/-- `(@set x (+ 1.0 2.0))`. -/
def setProgA : ParsedAst :=
  .mk (.call ⟨"set", .macroId⟩
    [.mk (.identifier xVarId) 0 0,
     .mk (.call ⟨"+", .varId⟩ [.mk (.floatL 1) 0 0, .mk (.floatL 2) 0 0]) 0 0]) 0 0

/-- `(@set x (+ x 1.0))`. -/
def setProgB : ParsedAst :=
  .mk (.call ⟨"set", .macroId⟩
    [.mk (.identifier xVarId) 0 0,
     .mk (.call ⟨"+", .varId⟩ [.mk (.identifier xVarId) 0 0,
       .mk (.floatL 1) 0 0]) 0 0]) 0 0

/-- C6: `set` with exactly two arguments lowers the value in the
current scope, errors unless it lowers to exactly one typed node,
installs the name via define-or-replace as a `Named(name, type)` alias
carrying the value's type, and returns exactly one `SetVariable` node;
consequently `(@set x (+ 1.0 2.0))` followed by `(@set x (+ x 1.0))`
in the same (global) scope both succeed — the second replaces the
same-typed binding instead of failing with `AlreadyDefined`. -/
theorem set_macro_spec :
    (∀ (nameAst valueAst : ParsedAst) (h : Heap) (s : Nat) (nameId : Identifier)
       (vals : List ItpAst) (h1 : Heap),
      nameAst.as_identifier = .ok nameId →
      interpretAst valueAst h s = .ok (vals, h1) →
      vals.length ≠ 1 →
      setMacro [nameAst, valueAst] h s = .err "Expected single value") ∧
    (∀ (nameAst valueAst : ParsedAst) (h : Heap) (s : Nat) (nameId : Identifier)
       (v : ItpAst) (t : ItpTypeValue) (h1 h2 : Heap),
      nameAst.as_identifier = .ok nameId →
      interpretAst valueAst h s = .ok ([v], h1) →
      v.get_type = some t →
      h1.scopeSetOrReplace s nameId.name (.named nameId t) = .ok h2 →
      setMacro [nameAst, valueAst] h s =
        .ok ([.mk (.setVariable nameId v) nameAst.line nameAst.column], h2)) ∧
    interpretList [setProgA, setProgB] initialHeap 0 =
      .ok ([.mk (.setVariable xVarId
              (.mk (.call ⟨"+", .varId⟩ [.mk (.constant (.float 1)) 0 0,
                .mk (.constant (.float 2)) 0 0] .float) 0 0)) 0 0,
            .mk (.setVariable xVarId
              (.mk (.call ⟨"+", .varId⟩ [.mk (.variableK xVarId .float) 0 0,
                .mk (.constant (.float 1)) 0 0] .float) 0 0)) 0 0],
          [⟨none, nativeFnsBindings ++ [("x", .named xVarId .float)]⟩,
           ⟨some 0, []⟩, ⟨some 0, []⟩]) := by
  refine ⟨?_, ?_, ?_⟩
  · intro nameAst valueAst h s nameId vals h1 hname hval hlen
    simp only [setMacro, hname, hval]
    rcases vals with _ | ⟨v, _ | ⟨w, rest⟩⟩
    · rfl
    · simp at hlen
    · rfl
  · intro nameAst valueAst h s nameId v t h1 h2 hname hval htype hsor
    simp only [setMacro, hname, hval, htype, hsor]
  · simp [interpretList, interpretAst, setMacro, setProgA, setProgB, xVarId,
      resolveCall, Heap.scopeGet, Heap.scopeAt, Heap.scopeSet, Heap.setScope,
      Heap.scopeReplace, Heap.scopeSetOrReplace, initialHeap, nativeFnsBindings,
      nodeTypes, ItpAst.get_type, ItpAstKind.get_type, ItpValue.get_type,
      ItpConstantValue.get_type, elementTypes, dedupTypes,
      ItpFunctionParameters.check_params, checkParamsLoop, check_param, insertAssoc,
      ParsedAst.as_identifier, ParsedAst.kind, ParsedAst.line, ParsedAst.column,
      List.lookup]

/-- Witness for C6 at `(@set x 1.0)` against the fresh interpreter:
one `SetVariable` node and a new `Named("x", Float)` global binding. -/
theorem set_macro_spec_witness :
    setMacro [.mk (.identifier ⟨"x", .varId⟩) 0 0, .mk (.floatL 1) 0 0] initialHeap 0 =
      .ok ([.mk (.setVariable ⟨"x", .varId⟩ (.mk (.constant (.float 1)) 0 0)) 0 0],
        [⟨none, nativeFnsBindings ++ [("x", .named ⟨"x", .varId⟩ .float)]⟩]) := by
  have h := set_macro_spec.2.1 (.mk (.identifier ⟨"x", .varId⟩) 0 0)
    (.mk (.floatL 1) 0 0)
    initialHeap 0 ⟨"x", .varId⟩ (.mk (.constant (.float 1)) 0 0) .float initialHeap
    [⟨none, nativeFnsBindings ++ [("x", .named ⟨"x", .varId⟩ .float)]⟩]
    rfl (by simp [interpretAst]) rfl
    (by simp [Heap.scopeSetOrReplace, Heap.scopeReplace, Heap.scopeSet, Heap.scopeAt,
      Heap.setScope, initialHeap, nativeFnsBindings, insertAssoc, List.lookup])
  simpa [ParsedAst.line, ParsedAst.column] using h

/-- The scope of the C1 scenario: the native registry plus a binding
`arr : Array(Float)`. -/
def getCallHeap : Heap :=
  [⟨none, nativeFnsBindings ++ [("arr", .named ⟨"arr", .varId⟩ (.array .float))]⟩]

/-- `(get arr 1.0)`. -/
def getCallAst : ParsedAst :=
  .mk (.call ⟨"get", .varId⟩
    [.mk (.identifier ⟨"arr", .varId⟩) 1 2, .mk (.floatL 1) 1 3]) 1 1

/-- C1 counterexample: resolving the call `(get arr 1.0)` with
`arr : Array(Float)` succeeds, `T` unifying with `Float` during
parameter checking, yet the produced `Call` node's `result` is the
unsubstituted declared return type `Generic("T")`, not `Float`: the
substitution map returned by `check_params` is discarded
(`IFPCheck::Ok => Ok(())`) and `result: return_type.clone()` is used
verbatim. -/
theorem call_get_result_generic :
    interpretAst getCallAst getCallHeap 0 =
      .ok ([.mk (.call ⟨"get", .varId⟩
          [.mk (.variableK ⟨"arr", .varId⟩ (.array .float)) 1 2,
           .mk (.constant (.float 1)) 1 3] (.generic "T")) 1 1],
        getCallHeap ++ [⟨some 0, []⟩]) ∧
    ItpTypeValue.generic "T" ≠ .float := by
  constructor
  · simp [interpretAst, interpretList, getCallAst, getCallHeap, resolveCall,
      Heap.scopeGet, Heap.scopeAt, initialHeap, nativeFnsBindings, nodeTypes,
      ItpAst.get_type, ItpAstKind.get_type, ItpValue.get_type,
      ItpConstantValue.get_type, elementTypes, dedupTypes,
      ItpFunctionParameters.check_params, checkParamsLoop, check_param, insertAssoc,
      ParsedAst.line, ParsedAst.column, List.lookup]
  · decide

theorem interpretAst_call_resolves (l c : Nat) (name : Identifier)
    (args : List ParsedAst) (h : Heap) (s : Nat) (func : ItpValue)
    (g : List String) (p : List (String × ItpTypeValue)) (v : Bool) (r : ItpTypeValue)
    (hkind : name.kind = .varId)
    (hget : h.scopeGet s name.name = some func)
    (hsig : funcSignature func = some (g, p, v, r)) :
    interpretAst (.mk (.call name args) l c) h s =
      resolveCall (.mk (.call name args) l c) name args g p v r h s := by
  obtain ⟨nm, kd⟩ := name
  simp only at hkind
  subst hkind
  simp only at hget
  rcases func with _ | _ | _ | ⟨n', g', p', v', b', r'⟩ | ⟨n', g', p', v', b', r'⟩
    | ⟨n', g', p', v', r', intr⟩
  · simp [funcSignature] at hsig
  · simp [funcSignature] at hsig
  · simp [funcSignature] at hsig
  · simp only [funcSignature, Option.some.injEq, Prod.mk.injEq] at hsig
    obtain ⟨hg, hp, hv, hr⟩ := hsig
    subst hg; subst hp; subst hv; subst hr
    simp only [interpretAst, hget]
  · simp only [funcSignature, Option.some.injEq, Prod.mk.injEq] at hsig
    obtain ⟨hg, hp, hv, hr⟩ := hsig
    subst hg; subst hp; subst hv; subst hr
    simp only [interpretAst, hget]
  · simp only [funcSignature, Option.some.injEq, Prod.mk.injEq] at hsig
    obtain ⟨hg, hp, hv, hr⟩ := hsig
    subst hg; subst hp; subst hv; subst hr
    simp only [interpretAst, hget]

/-- C1 amended: when resolving a call whose head resolves to a
function-like binding succeeds, the produced `Call` node's `result`
type is the callee signature's declared return type taken verbatim —
no generic bound during parameter checking is substituted into it (the
substitution map from `check_params` is discarded). -/
theorem call_result_type_unsubstituted (l c : Nat) (name : Identifier)
    (args : List ParsedAst) (h : Heap) (s : Nat) (func : ItpValue)
    (g : List String) (p : List (String × ItpTypeValue)) (v : Bool) (r : ItpTypeValue)
    (nodes : List ItpAst) (h' : Heap)
    (hkind : name.kind = .varId)
    (hget : h.scopeGet s name.name = some func)
    (hsig : funcSignature func = some (g, p, v, r))
    (hok : interpretAst (.mk (.call name args) l c) h s = .ok (nodes, h')) :
    ∃ argNodes, nodes = [.mk (.call name argNodes r) l c] := by
  rw [interpretAst_call_resolves l c name args h s func g p v r hkind hget hsig] at hok
  simp only [resolveCall] at hok
  split at hok
  · exact absurd hok (by simp)
  · exact absurd hok (by simp)
  · split at hok
    · exact absurd hok (by simp)
    · split at hok
      · simp only [Res.ok.injEq, Prod.mk.injEq] at hok
        exact ⟨_, hok.1.symm⟩
      · exact absurd hok (by simp)
      · exact absurd hok (by simp)
      · exact absurd hok (by simp)

/-- Witness for the C1 amended theorem at the `(get arr 1.0)` call:
the produced node's result type is the declared `Generic("T")`. -/
theorem call_result_type_unsubstituted_witness :
    ∃ argNodes,
      [ItpAst.mk (.call ⟨"get", .varId⟩
          [.mk (.variableK ⟨"arr", .varId⟩ (.array .float)) 1 2,
           .mk (.constant (.float 1)) 1 3] (.generic "T")) 1 1] =
        [ItpAst.mk (.call ⟨"get", .varId⟩ argNodes (.generic "T")) 1 1] :=
  call_result_type_unsubstituted 1 1 ⟨"get", .varId⟩
    [.mk (.identifier ⟨"arr", .varId⟩) 1 2, .mk (.floatL 1) 1 3]
    getCallHeap 0
    (.nativeFunction "get" ["T"]
      [("array", .array (.generic "T")), ("index", .float)] false (.generic "T") true)
    ["T"] [("array", .array (.generic "T")), ("index", .float)] false (.generic "T")
    [.mk (.call ⟨"get", .varId⟩
        [.mk (.variableK ⟨"arr", .varId⟩ (.array .float)) 1 2,
         .mk (.constant (.float 1)) 1 3] (.generic "T")) 1 1]
    (getCallHeap ++ [⟨some 0, []⟩])
    rfl
    (by simp [Heap.scopeGet, Heap.scopeAt, getCallHeap, nativeFnsBindings, List.lookup])
    rfl
    (by simp [interpretAst, interpretList, getCallHeap, resolveCall,
      Heap.scopeGet, Heap.scopeAt, nativeFnsBindings, nodeTypes,
      ItpAst.get_type, ItpAstKind.get_type, ItpValue.get_type,
      ItpConstantValue.get_type, elementTypes, dedupTypes,
      ItpFunctionParameters.check_params, checkParamsLoop, check_param, insertAssoc,
      ParsedAst.line, ParsedAst.column, List.lookup])

/-- Witness for C8 at concrete signatures: a binary non-variadic
`Float → Float → Float` signature under- and over-applied, and the
variadic `printf` signature ignoring extra argument types. -/
theorem check_params_arity_witness :
    ItpFunctionParameters.check_params ⟨[], [("a", .float), ("b", .float)], false⟩
        [.float] = .notEnoughParameters ∧
    ItpFunctionParameters.check_params ⟨[], [("a", .float), ("b", .float)], false⟩
        [.float, .float, .float] = .tooManyParameters ∧
    ItpFunctionParameters.check_params ⟨[], [("format", .string)], true⟩
        ([.string] ++ [.float, .bool]) =
      ItpFunctionParameters.check_params ⟨[], [("format", .string)], true⟩ [.string] := by
  refine ⟨?_, ?_, ?_⟩
  · exact (check_params_arity ⟨[], [("a", .float), ("b", .float)], false⟩ [.float]).1
      (by decide)
  · exact (check_params_arity ⟨[], [("a", .float), ("b", .float)], false⟩
      [.float, .float, .float]).2.1 rfl (by decide)
  · exact (check_params_arity ⟨[], [("format", .string)], true⟩ [.string]).2.2 rfl
      (by decide) [.float, .bool]

/-- C2: after `interpret` returns successfully, no `UnItpedFunction`
binding remains in the global scope, and every placeholder recorded
after pass 1 (the state `h1`) has been replaced by a `Function` binding
with the same name and declared signature whose body is the
concatenation of the lowerings of the stored raw body statements,
lowered (by `lowerFunctionBody`) in a fresh child scope of the global
scope in which the i-th declared parameter name is bound to
`Param(i, type)`. -/
theorem interpret_resolves_placeholders (prog : List ParsedAst) (hF : Heap)
    (hok : interpret prog = .ok hF) :
    ∃ h1, interpretTopLevel initialHeap prog = .ok h1 ∧
      (∀ k v, (hF.scopeAt 0).bindings.lookup k = some v → ¬ v.isUnItped) ∧
      (∀ k fnName generics parameters variadic body returnType,
        (h1.scopeAt 0).bindings.lookup k =
          some (.unItpedFunction fnName generics parameters variadic body returnType) →
        ∃ hpre ibody hpost,
          lowerFunctionBody hpre parameters body = .ok (ibody, hpost) ∧
          (hF.scopeAt 0).bindings.lookup k =
            some (.function fnName generics parameters variadic ibody returnType)) := by
  simp only [interpret, interpretFrom] at hok
  cases hTL : interpretTopLevel initialHeap prog with
  | err m => simp [hTL] at hok
  | panic m => simp [hTL] at hok
  | ok h1 =>
      simp only [hTL] at hok
      refine ⟨h1, rfl, ?_⟩
      obtain ⟨⟨hlen01, hpar01, -⟩, hnd01⟩ :=
        interpretTopLevel_masterOk prog initialHeap h1 hTL
      have hndInit : HeapNodup initialHeap := by
        intro sc hsc
        simp only [initialHeap, List.mem_singleton] at hsc
        subst hsc
        decide
      have hnd1 : HeapNodup h1 := hnd01 hndInit
      have h0len : 0 < h1.length := by
        have hinit : (0:Nat) < initialHeap.length := by simp [initialHeap]
        omega
      have hpar1 : (h1.scopeAt 0).parent = none := by
        rw [hpar01 0 (by simp [initialHeap])]
        simp [initialHeap, Heap.scopeAt]
      simp only [interpret_uninterpreted_functions] at hok
      cases hPU : processUninterpreted h1 (h1.scopeAt 0).bindings with
      | err m => simp [hPU] at hok
      | panic m => simp [hPU] at hok
      | ok pair =>
          obtain ⟨newFns, h2⟩ := pair
          simp only [hPU] at hok
          obtain ⟨⟨hlen12, hpar12, hbinds12, hnd12⟩, hsub, hnotun, hcover⟩ :=
            processUninterpreted_spec (h1.scopeAt 0).bindings h1 newFns h2 hPU
          have hbindsKeysNodup : ((h1.scopeAt 0).bindings.map Prod.fst).Nodup :=
            scopeAt_nodup h1 0 hnd1
          have hnfNodup : (newFns.map Prod.fst).Nodup :=
            List.Nodup.sublist hsub hbindsKeysNodup
          have hpar2 : (h2.scopeAt 0).parent = none := by
            rw [hpar12 0 h0len, hpar1]
          obtain ⟨hrep1, hrep2⟩ := replaceAll_spec newFns h2 hF hnfNodup hpar2 hok
          have hglobRel := hbinds12 0 h0len
          constructor
          · intro k v hlookF
            cases hNF : newFns.lookup k with
            | some fv =>
                have hv : v = fv := by
                  have hx := hrep1 k fv hNF
                  rw [hlookF] at hx
                  exact Option.some.inj hx
                subst hv
                exact hnotun (k, v) (lookup_mem newFns k v hNF)
            | none =>
                have heq := hrep2 k hNF
                rw [hlookF] at heq
                obtain ⟨w, hw, hrel⟩ := (bindsRel_lookup hglobRel k).2 v heq.symm
                have hwn : ¬ w.isUnItped := by
                  intro hwu
                  cases w with
                  | unItpedFunction fn g p vd b r =>
                      obtain ⟨hp, hi, hpost, -, hmem⟩ :=
                        hcover k fn g p vd b r (lookup_mem _ k _ hw)
                      obtain ⟨w2, hw2⟩ := lookup_isSome_of_mem newFns k _ hmem
                      rw [hNF] at hw2
                      exact absurd hw2 (by simp)
                  | param i t => exact hwu
                  | constant c => exact hwu
                  | named id t => exact hwu
                  | function fn fg fp fv2 fb fr => exact hwu
                  | nativeFunction fn fg fp fv2 fr fi => exact hwu
                exact valRel_not_unItped hrel hwn
          · intro k fn g p vd b r hlook1
            have hmem := lookup_mem _ k _ hlook1
            obtain ⟨hp, hi, hpost, hl, hmemNF⟩ := hcover k fn g p vd b r hmem
            exact ⟨hp, hi, hpost, hl,
              hrep1 k _ (lookup_eq_of_mem_nodup newFns k _ hnfNodup hmemNF)⟩

/-- `(@fn f [] 1.0)`: a single placeholder-producing program for the
C2 witness. -/
def fnProg : List ParsedAst :=
  [.mk (.call ⟨"fn", .macroId⟩
    [.mk (.identifier ⟨"f", .varId⟩) 0 0,
     .mk (.arrayL []) 0 0,
     .mk (.floatL 1) 0 0]) 0 0]

/-- The heap produced by running `interpret` on `fnProg`. -/
def fnProgResultHeap : Heap :=
  [⟨none, nativeFnsBindings ++
      [("f", ItpValue.function "f" [] [] false
        [.mk (.constant (.float 1)) 0 0] .float)]⟩,
   ⟨some 0, []⟩]

/-- Witness for C2 at `fnProg`: the run succeeds, so the placeholder
for `f` ends up as a fully lowered `Function` binding. -/
theorem interpret_resolves_placeholders_witness :
    ∃ h1, interpretTopLevel initialHeap fnProg = .ok h1 ∧
      (∀ k v, (Heap.scopeAt fnProgResultHeap 0).bindings.lookup k = some v →
        ¬ ItpValue.isUnItped v) ∧
      (∀ k fnName generics parameters variadic body returnType,
        (Heap.scopeAt h1 0).bindings.lookup k =
          some (.unItpedFunction fnName generics parameters variadic body returnType) →
        ∃ hpre ibody hpost,
          lowerFunctionBody hpre parameters body = .ok (ibody, hpost) ∧
          (Heap.scopeAt fnProgResultHeap 0).bindings.lookup k =
            some (.function fnName generics parameters variadic ibody returnType)) :=
  interpret_resolves_placeholders fnProg fnProgResultHeap
    (by simp [interpret, interpretFrom, interpretTopLevel, interpret_uninterpreted_functions,
      processUninterpreted, replaceAll, lowerFunctionBody, bindParams, fnProg, fnProgResultHeap,
      interpretAst, interpretList, fnMacro, Heap.scopeGet, Heap.scopeAt, Heap.scopeSet,
      Heap.setScope, Heap.scopeReplace, Heap.scopeSetOrReplace, initialHeap,
      nativeFnsBindings, nodeTypes, ItpAst.get_type, ItpAstKind.get_type,
      ItpValue.get_type, ItpConstantValue.get_type, elementTypes, dedupTypes,
      ItpFunctionParameters.check_params, checkParamsLoop, check_param, insertAssoc,
      ParsedAst.as_identifier, ParsedAst.as_array, identifierParams, ParsedAst.kind,
      ParsedAst.line, ParsedAst.column, List.lookup])

end CompiledLang
